import Mathlib

/-!
# Registry retention purge: a shallow embedding of `functions/purge/handler.go`

The Go function `Handle` resolves a registry namespace, lists its images, lists
the tags of every image and deletes the tags that are older than the retention
date and do not match the preservation pattern.  This file embeds

* the fragment of Go's `regexp` (RE2 syntax) that the repository's patterns use:
  a parser for pattern strings and the matcher behind `MatchString`;
* Go's `strconv.Atoi` and `strconv.ParseBool`, as used by `init`;
* `init` (configuration loading) and `Handle` with the four `RegistryClient`
  methods, against a registry gateway whose answers may depend on the whole
  history of the requests made so far.

Unbounded `for` loops take a fuel argument: `none` means the fuel ran out.
-/

namespace Purge

/-! ## Regular expressions (Go `regexp`, RE2 syntax) -/

/-- Abstract syntax of the regular expressions of the fragment. Capturing and
non-capturing groups both parse to their body: `MatchString` does not observe
captures. -/
inductive Regexp where
  /-- The empty expression: matches the empty string. -/
  | empty
  /-- A literal character. -/
  | lit (c : Char)
  /-- The dot: any character except newline (no `s` flag). -/
  | anyNotNL
  /-- A character class `[...]` (negated when `neg`), as a list of inclusive ranges. -/
  | cls (neg : Bool) (ranges : List (Char × Char))
  /-- The anchor `^`: beginning of text (no `m` flag). -/
  | bot
  /-- The anchor `$`: end of text (no `m` flag). -/
  | eot
  /-- Concatenation. -/
  | cat (a b : Regexp)
  /-- Alternation `a|b`. -/
  | alt (a b : Regexp)
  /-- Repetition `a*`. -/
  | star (a : Regexp)
  /-- Repetition `a+`. -/
  | plus (a : Regexp)
  /-- Option `a?`. -/
  | quest (a : Regexp)
  deriving DecidableEq, Repr

/-- A matcher position: whether it is the beginning of the text, and the text
that remains to be read. -/
abbrev MState := Bool × List Char

/-- All positions reachable by repeating `f` any number of times, where only
iterations that consume input are followed (an iteration that consumes nothing
reaches nothing new). The counter bounds the number of iterations by the
length of the remaining text. -/
def iter (f : MState → List MState) : Nat → MState → List MState
  | 0, s => [s]
  | n + 1, s => s :: ((f s).filter (fun t => t.2.length < s.2.length)).flatMap (iter f n)

/-- Membership of a character in a list of inclusive ranges. -/
def inClass (rs : List (Char × Char)) (c : Char) : Bool :=
  rs.any (fun r => r.1 ≤ c && c ≤ r.2)

/-- The positions at which a match of the expression that starts at the given
position can end. -/
def step : Regexp → MState → List MState
  | .empty, s => [s]
  | .lit c, (_, x :: xs) => if x = c then [(false, xs)] else []
  | .lit _, (_, []) => []
  | .anyNotNL, (_, x :: xs) => if x = '\n' then [] else [(false, xs)]
  | .anyNotNL, (_, []) => []
  | .cls neg rs, (_, x :: xs) => if inClass rs x != neg then [(false, xs)] else []
  | .cls _ _, (_, []) => []
  | .bot, (b, xs) => if b then [(b, xs)] else []
  | .eot, (b, xs) => if xs.isEmpty then [(b, xs)] else []
  | .cat a b, s => (step a s).flatMap (step b)
  | .alt a b, s => step a s ++ step b s
  | .star a, s => iter (step a) s.2.length s
  | .plus a, s => (step a s).flatMap (fun t => iter (step a) t.2.length t)
  | .quest a, s => step a s ++ [s]

/-- Unanchored search: does a match start at this position or at a later one. -/
def matchFrom (r : Regexp) : Bool → List Char → Bool
  | b, [] => !(step r (b, [])).isEmpty
  | b, x :: xs => !(step r (b, x :: xs)).isEmpty || matchFrom r false xs

/-- Go's `(*Regexp).MatchString`: whether the string contains any match of the
expression. -/
def Regexp.MatchString (r : Regexp) (s : String) : Bool := matchFrom r true s.toList

/-- The repetition operators `*`, `+`, `?`. -/
def isRepeatOp (c : Char) : Bool := c = '*' || c = '+' || c = '?'

/-- A backslash escape outside a character class: the Perl classes `\d \D \w \W
\s \S`, the escapes `\n \t \r`, and a backslash before ASCII punctuation, which
stands for that character. Other escapes are outside the fragment. -/
def parseEscape (c : Char) : Option Regexp :=
  if c = 'd' then some (.cls false [('0', '9')])
  else if c = 'D' then some (.cls true [('0', '9')])
  else if c = 'w' then some (.cls false [('0', '9'), ('A', 'Z'), ('_', '_'), ('a', 'z')])
  else if c = 'W' then some (.cls true [('0', '9'), ('A', 'Z'), ('_', '_'), ('a', 'z')])
  else if c = 's' then some (.cls false [('\t', '\n'), ('\x0c', '\r'), (' ', ' ')])
  else if c = 'S' then some (.cls true [('\t', '\n'), ('\x0c', '\r'), (' ', ' ')])
  else if c = 'n' then some (.lit '\n')
  else if c = 't' then some (.lit '\t')
  else if c = 'r' then some (.lit '\r')
  else if c.toNat < 128 && !c.isAlphanum then some (.lit c)
  else none

/-- The items of a character class up to the closing bracket: single
characters and ranges `lo-hi`; a `]` in first place is a literal, and a `-`
before the closing bracket is a literal. Escapes and named classes inside a
class are outside the fragment. -/
def parseClass : Nat → Bool → List (Char × Char) → List Char →
    Option (List (Char × Char) × List Char)
  | 0, _, _, _ => none
  | _ + 1, _, _, [] => none
  | n + 1, first, acc, c :: cs =>
    if c = ']' && !first then some (acc, cs)
    else if c = '\\' || c = '[' then none
    else
      match cs with
      | '-' :: hi :: rest =>
        if hi = ']' then parseClass n false (acc ++ [(c, c)]) cs
        else if hi = '\\' || hi = '[' then none
        else if hi < c then none
        else parseClass n false (acc ++ [(c, hi)]) rest
      | _ => parseClass n false (acc ++ [(c, c)]) cs

/-- An optional repetition operator after an atom, with an optional `?`
(non-greedy, which `MatchString` does not observe); a second repetition
operator is an error. -/
def applyRepeat (a : Regexp) : List Char → Option (Regexp × List Char)
  | op :: cs =>
    if isRepeatOp op then
      let r := if op = '*' then Regexp.star a else if op = '+' then Regexp.plus a else Regexp.quest a
      match cs with
      | '?' :: d :: rest => if isRepeatOp d then none else some (r, d :: rest)
      | '?' :: [] => some (r, [])
      | d :: rest => if isRepeatOp d then none else some (r, d :: rest)
      | [] => some (r, [])
    else some (a, op :: cs)
  | [] => some (a, [])

mutual
/-- An alternation: concatenations separated by `|`. -/
def parseAlt : Nat → List Char → Option (Regexp × List Char)
  | 0, _ => none
  | n + 1, cs =>
    match parseCat n cs with
    | none => none
    | some (a, '|' :: rest) =>
      match parseAlt n rest with
      | none => none
      | some (b, rest2) => some (.alt a b, rest2)
    | some (a, rest) => some (a, rest)
/-- A concatenation: repeated atoms up to `|`, `)` or the end. -/
def parseCat : Nat → List Char → Option (Regexp × List Char)
  | 0, _ => none
  | _ + 1, [] => some (.empty, [])
  | _ + 1, '|' :: cs => some (.empty, '|' :: cs)
  | _ + 1, ')' :: cs => some (.empty, ')' :: cs)
  | n + 1, c :: cs =>
    match parseAtom n (c :: cs) with
    | none => none
    | some (a, rest) =>
      match applyRepeat a rest with
      | none => none
      | some (a, rest) =>
        match parseCat n rest with
        | none => none
        | some (.empty, rest2) => some (a, rest2)
        | some (b, rest2) => some (.cat a b, rest2)
/-- An atom: a group, a class, an escape, `.`, `^`, `$` or a literal. -/
def parseAtom : Nat → List Char → Option (Regexp × List Char)
  | 0, _ => none
  | _ + 1, [] => none
  | n + 1, '(' :: '?' :: ':' :: cs =>
    match parseAlt n cs with
    | some (a, ')' :: rest) => some (a, rest)
    | _ => none
  | _ + 1, '(' :: '?' :: _ => none
  | n + 1, '(' :: cs =>
    match parseAlt n cs with
    | some (a, ')' :: rest) => some (a, rest)
    | _ => none
  | n + 1, '[' :: '^' :: cs =>
    match parseClass n true [] cs with
    | some (rs, rest) => some (.cls true rs, rest)
    | none => none
  | n + 1, '[' :: cs =>
    match parseClass n true [] cs with
    | some (rs, rest) => some (.cls false rs, rest)
    | none => none
  | _ + 1, '\\' :: c :: cs =>
    match parseEscape c with
    | some a => some (a, cs)
    | none => none
  | _ + 1, '\\' :: [] => none
  | _ + 1, '.' :: cs => some (.anyNotNL, cs)
  | _ + 1, '^' :: cs => some (.bot, cs)
  | _ + 1, '$' :: cs => some (.eot, cs)
  | _ + 1, c :: cs => if isRepeatOp c || c = '{' then none else some (.lit c, cs)
end

/-- Go's `regexp.Compile` on the fragment: `none` is a compile error. A pattern
that uses syntax outside the fragment (counted repetition, flags, named
classes, other escapes) is rejected as well; the patterns this development
evaluates, the empty pattern and `DefaultTagPattern`, are inside it. -/
def Compile (expr : String) : Option Regexp :=
  match parseAlt (3 * expr.length + 3) expr.toList with
  | some (r, []) => some r
  | _ => none

/-- The constant `DefaultTagPattern` of handler.go, line 18: the characters
between the backquotes of the Go raw string literal, unchanged (a raw string
holds no escapes, so each `\\` of the source is two backslash characters). -/
def DefaultTagPattern : String := r"^latest((-.+)?)$|^(0|[1-9]\\d*)\\.(0|[1-9]\\d*)\\.(0|[1-9]\\d*)(?:-((?:0|[1-9]\\d*|\\d*[a-zA-Z-][0-9a-zA-Z-]*)(?:\\.(?:0|[1-9]\\d*|\\d*[a-zA-Z-][0-9a-zA-Z-]*))*))?(?:\\+([0-9a-zA-Z-]+(?:\\.[0-9a-zA-Z-]+)*))?$"

/-- The Semantic Versioning 2.0.0 pattern that `DefaultTagPattern` is written
after: the same text with every doubled backslash single, so that `\d` is a
digit and `\.` and `\+` are the literal characters. It is not in the source;
it is here to compare the constant with. -/
def semverTagPattern : String := r"^latest((-.+)?)$|^(0|[1-9]\d*)\.(0|[1-9]\d*)\.(0|[1-9]\d*)(?:-((?:0|[1-9]\d*|\d*[a-zA-Z-][0-9a-zA-Z-]*)(?:\.(?:0|[1-9]\d*|\d*[a-zA-Z-][0-9a-zA-Z-]*))*))?(?:\+([0-9a-zA-Z-]+(?:\.[0-9a-zA-Z-]+)*))?$"

/-! ## `strconv` -/

/-- The value of a string of decimal digits, `none` when a character is not a digit. -/
def digitsValue : List Char → Nat → Option Nat
  | [], acc => some acc
  | c :: cs, acc =>
    if '0' ≤ c && c ≤ '9' then digitsValue cs (acc * 10 + (c.toNat - 48)) else none

/-- Go's `strconv.Atoi` for a 64-bit `int`: an optional sign and at least one
decimal digit; an error on any other text (the empty string included) and on a
value outside the range of `int`. -/
def Atoi (s : String) : Except String Int :=
  let signed : Bool × List Char :=
    match s.toList with
    | '-' :: rest => (true, rest)
    | '+' :: rest => (false, rest)
    | cs => (false, cs)
  if signed.2.isEmpty then .error "invalid syntax"
  else
    match digitsValue signed.2 0 with
    | none => .error "invalid syntax"
    | some n =>
      if signed.1 then
        if n > 9223372036854775808 then .error "value out of range" else .ok (-(n : Int))
      else
        if n ≥ 9223372036854775808 then .error "value out of range" else .ok (n : Int)

/-- Go's `strconv.ParseBool`: accepts 1, t, T, TRUE, true, True, 0, f, F, FALSE,
false, False; any other value is an error. -/
def ParseBool (str : String) : Except String Bool :=
  if str = "1" || str = "t" || str = "T" || str = "true" || str = "TRUE" || str = "True" then .ok true
  else if str = "0" || str = "f" || str = "F" || str = "false" || str = "FALSE" || str = "False" then
    .ok false
  else .error "invalid syntax"

/-! ## Configuration (`Config`, `init`) -/

/-- The type `Config` of handler.go. -/
structure Config where
  AccessKey : String
  SecretKey : String
  Region : String
  ProjectID : String
  RegistryNamespace : String
  RetentionDays : Int
  DryRun : Bool
  PreserveTagPatterns : Regexp
  deriving DecidableEq, Repr

/-- The type `ConfigError` of handler.go. -/
structure ConfigError where
  Field : String
  Message : String
  deriving DecidableEq, Repr

def ErrMissingAccessKey : ConfigError :=
  { Field := "REGISTRY_ACCESS_KEY", Message := "Scaleway access key is required" }

def ErrMissingProjectID : ConfigError :=
  { Field := "REGISTRY_PROJECT_ID", Message := "Scaleway project ID is required" }

def ErrMissingRegion : ConfigError :=
  { Field := "REGISTRY_REGION", Message := "Region is required" }

def ErrMissingRegistryNamespace : ConfigError :=
  { Field := "REGISTRY_NAMESPACE", Message := "Registry namespace is required" }

def ErrMissingSecretKey : ConfigError :=
  { Field := "REGISTRY_SECRET_KEY", Message := "Scaleway secret key is required" }

/-- The value a Go `panic` is raised with. -/
inductive PanicValue where
  | configError (e : ConfigError)
  | error (msg : String)
  deriving DecidableEq, Repr

/-- The optional part of `init` (handler.go, lines 117-134): DRY_RUN,
RETENTION_DAYS and PRESERVE_TAG_PATTERNS, read after the five required
variables. `regexp.MustCompile` panics when `DefaultTagPattern` does not
compile. -/
def initOptional (Getenv : String → String) (config : Config) : Except PanicValue Config :=
  let config : Config :=
    match ParseBool (Getenv "DRY_RUN") with
    | .ok b => { config with DryRun := b }
    | .error _ => { config with DryRun := true }
  let config : Config :=
    match Atoi (Getenv "RETENTION_DAYS") with
    | .ok n =>
      if n < 1 then { config with DryRun := true, RetentionDays := 30 }
      else { config with RetentionDays := n }
    | .error _ => { config with DryRun := true, RetentionDays := 30 }
  match Compile (Getenv "PRESERVE_TAG_PATTERNS") with
  | some re => .ok { config with PreserveTagPatterns := re }
  | none =>
    match Compile DefaultTagPattern with
    | some re => .ok { config with PreserveTagPatterns := re }
    | none => .error (.error "regexp: Compile: error parsing regexp")

/-- The function `init` of handler.go: the configuration read from the
environment (`os.Getenv` gives the empty string for an unset variable), or the
value `init` panics with. The log level affects logging only and is left out.
`NewClient` stands for `scw.NewClient`: the error it returns, if any. -/
def init (Getenv : String → String) (NewClient : Config → Option String) :
    Except PanicValue Config :=
  let config : Config :=
    { AccessKey := Getenv "REGISTRY_ACCESS_KEY"
      ProjectID := Getenv "REGISTRY_PROJECT_ID"
      Region := Getenv "REGISTRY_REGION"
      RegistryNamespace := Getenv "REGISTRY_NAMESPACE"
      SecretKey := Getenv "REGISTRY_SECRET_KEY"
      RetentionDays := 0
      DryRun := false
      PreserveTagPatterns := .empty }
  if config.AccessKey = "" then .error (.configError ErrMissingAccessKey)
  else if config.ProjectID = "" then .error (.configError ErrMissingProjectID)
  else if config.Region = "" then .error (.configError ErrMissingRegion)
  else if config.RegistryNamespace = "" then .error (.configError ErrMissingRegistryNamespace)
  else if config.SecretKey = "" then .error (.configError ErrMissingSecretKey)
  else
    match initOptional Getenv config with
    | .error p => .error p
    | .ok config =>
      match NewClient config with
      | some err => .error (.error err)
      | none => .ok config

deriving instance DecidableEq for Except

/-! ## Registry data and the gateway -/

/-- An instant (Go `time.Time` without a monotonic reading), in nanoseconds. -/
structure Time where
  unixNano : Int
  deriving DecidableEq, Repr

/-- Go's `Time.Before`: strictly earlier. -/
def Time.Before (t u : Time) : Bool := decide (t.unixNano < u.unixNano)

/-- What `Handle` reads of the clock: `time.Now()` and `Time.AddDate`, whose
calendar arithmetic depends on the time zone and is left to the caller. -/
structure Clock where
  Now : Time
  AddDate : Time → Int → Int → Int → Time

/-- The fields of `registry.Namespace` that the code reads. -/
structure Namespace where
  ID : String
  Name : String
  deriving DecidableEq, Repr

/-- The fields of `registry.Image` that the code reads. -/
structure Image where
  ID : String
  Name : String
  deriving DecidableEq, Repr

/-- The fields of `registry.Tag` that the code reads. `UpdatedAt` is a
`*time.Time`: `none` is the nil pointer that the SDK leaves when the answer
holds no `updated_at`. -/
structure Tag where
  ID : String
  Name : String
  UpdatedAt : Option Time
  deriving DecidableEq, Repr

/-- The request of `ListNamespaces` built by `getNamespace`. -/
structure ListNamespacesRequest where
  Region : String
  ProjectID : String
  Name : String
  deriving DecidableEq, Repr

/-- The request of `ListImages`; `PageSize` is a `uint32`, `Page` an `int32`. -/
structure ListImagesRequest where
  Region : String
  NamespaceID : String
  PageSize : Nat
  Page : Int
  deriving DecidableEq, Repr

/-- The request of `ListTags`; `PageSize` is a `uint32`, `Page` an `int32`. -/
structure ListTagsRequest where
  Region : String
  ImageID : String
  PageSize : Nat
  Page : Int
  deriving DecidableEq, Repr

/-- The request of `DeleteTag`. -/
structure DeleteTagRequest where
  Region : String
  TagID : String
  deriving DecidableEq, Repr

/-- A call made to the registry API. -/
inductive Call where
  | listNamespaces (req : ListNamespacesRequest)
  | listImages (req : ListImagesRequest)
  | listTags (req : ListTagsRequest)
  | deleteTag (req : DeleteTagRequest)
  deriving DecidableEq, Repr

/-- The calls made so far, oldest first. -/
abbrev Trace := List Call

/-- The registry API as the code sees it (`registry.API`): the answer to a
request, given the calls made before it. Any deterministic server, stateful
or failing at will, is such a function of the history. -/
structure Gateway where
  ListNamespaces : Trace → ListNamespacesRequest → Except String (List Namespace)
  ListImages : Trace → ListImagesRequest → Except String (List Image)
  ListTags : Trace → ListTagsRequest → Except String (List Tag)
  DeleteTag : Trace → DeleteTagRequest → Except String Unit

/-- Go's `page++` on an `int32`: two's-complement wrap-around. -/
def wrapInt32 (x : Int) : Int := (x + 2147483648) % 4294967296 - 2147483648

/-! ## `RegistryClient` -/

/-- The method `RegistryClient.DeleteTag`: the error returned, if any, and the
history after the call. In dry-run mode no call is made. -/
def RegistryClient.DeleteTag (gw : Gateway) (config : Config) (h : Trace) (tag : Tag) :
    Option String × Trace :=
  if config.DryRun then (none, h)
  else
    let req : DeleteTagRequest := { Region := config.Region, TagID := tag.ID }
    match gw.DeleteTag h req with
    | .error err =>
      (some ("failed to delete tag " ++ tag.Name ++ " (" ++ tag.ID ++ "): " ++ err),
        h ++ [Call.deleteTag req])
    | .ok _ => (none, h ++ [Call.deleteTag req])

/-- The method `RegistryClient.getNamespace`: the first namespace of the answer. -/
def RegistryClient.getNamespace (gw : Gateway) (config : Config) (h : Trace) :
    Except String Namespace × Trace :=
  let req : ListNamespacesRequest :=
    { Region := config.Region, ProjectID := config.ProjectID, Name := config.RegistryNamespace }
  match gw.ListNamespaces h req with
  | .error err => (.error ("failed to list namespaces: " ++ err), h ++ [Call.listNamespaces req])
  | .ok [] =>
    (.error ("namespace not found: " ++ config.RegistryNamespace), h ++ [Call.listNamespaces req])
  | .ok (ns :: _) => (.ok ns, h ++ [Call.listNamespaces req])

/-- How a listing loop stands after the given fuel: it has returned a result,
or it is still running; in both cases with the calls made so far. -/
inductive Walk (α : Type) where
  | returned (r : Except String (List α)) (h : Trace)
  | running (h : Trace)
  deriving DecidableEq, Repr

/-- The loop of `RegistryClient.ListImages` from the given page on, with the
images accumulated so far; one unit of fuel per iteration. -/
def RegistryClient.ListImages.loop (gw : Gateway) (config : Config) (ns : Namespace) :
    Nat → Int → List Image → Trace → Walk Image
  | 0, _, _, h => Walk.running h
  | fuel + 1, page, allImages, h =>
    let req : ListImagesRequest :=
      { Region := config.Region, NamespaceID := ns.ID, PageSize := 100, Page := page }
    match gw.ListImages h req with
    | .error err =>
      Walk.returned (.error ("failed to list images: " ++ err)) (h ++ [Call.listImages req])
    | .ok images =>
      if images.length < 100 then
        Walk.returned (.ok (allImages ++ images)) (h ++ [Call.listImages req])
      else
        RegistryClient.ListImages.loop gw config ns fuel (wrapInt32 (page + 1))
          (allImages ++ images) (h ++ [Call.listImages req])

/-- The method `RegistryClient.ListImages`: starts at page 1 with no image. -/
def RegistryClient.ListImages (gw : Gateway) (config : Config) (ns : Namespace) (fuel : Nat)
    (h : Trace) : Walk Image :=
  RegistryClient.ListImages.loop gw config ns fuel 1 [] h

/-- The loop of `RegistryClient.ListTags` from the given page on, with the tags
accumulated so far; one unit of fuel per iteration. -/
def RegistryClient.ListTags.loop (gw : Gateway) (config : Config) (image : Image) :
    Nat → Int → List Tag → Trace → Walk Tag
  | 0, _, _, h => Walk.running h
  | fuel + 1, page, allTags, h =>
    let req : ListTagsRequest :=
      { Region := config.Region, ImageID := image.ID, PageSize := 100, Page := page }
    match gw.ListTags h req with
    | .error err =>
      Walk.returned (.error ("failed to list tags for image " ++ image.Name ++ ": " ++ err))
        (h ++ [Call.listTags req])
    | .ok tags =>
      if tags.length < 100 then Walk.returned (.ok (allTags ++ tags)) (h ++ [Call.listTags req])
      else
        RegistryClient.ListTags.loop gw config image fuel (wrapInt32 (page + 1))
          (allTags ++ tags) (h ++ [Call.listTags req])

/-- The method `RegistryClient.ListTags`: starts at page 1 with no tag. -/
def RegistryClient.ListTags (gw : Gateway) (config : Config) (image : Image) (fuel : Nat)
    (h : Trace) : Walk Tag :=
  RegistryClient.ListTags.loop gw config image fuel 1 [] h

/-! ## `Handle` -/

/-- The statistics of `Handle` together with the calls made so far. -/
structure RunState where
  errorImages : Nat
  deletedTags : Nat
  errorTags : Nat
  preservedTags : Nat
  skippedTags : Nat
  trace : Trace
  deriving DecidableEq, Repr

/-- The value of the runtime panic of Go on the dereference of a nil pointer. -/
def nilDereference : String := "runtime error: invalid memory address or nil pointer dereference"

/-- The body of the tag loop of `Handle` (handler.go, lines 196-221): the new
state, or the panic of `tag.UpdatedAt.Before` on a nil `UpdatedAt`. -/
def processTag (gw : Gateway) (config : Config) (retentionDate : Time) (st : RunState)
    (tag : Tag) : Except String RunState :=
  match tag.UpdatedAt with
  | none => .error nilDereference
  | some updatedAt =>
    if updatedAt.Before retentionDate then
      if config.PreserveTagPatterns.MatchString tag.Name then
        .ok { st with preservedTags := st.preservedTags + 1 }
      else
        match RegistryClient.DeleteTag gw config st.trace tag with
        | (some _, h) => .ok { st with errorTags := st.errorTags + 1, trace := h }
        | (none, h) => .ok { st with deletedTags := st.deletedTags + 1, trace := h }
    else
      .ok { st with skippedTags := st.skippedTags + 1 }

/-- How a loop of `Handle` stands: it ran to its end, it panicked, or a tag
listing is still running after the fuel; each with the state reached. -/
inductive LoopResult where
  | done (st : RunState)
  | panicked (err : String) (st : RunState)
  | outOfFuel (st : RunState)
  deriving DecidableEq, Repr

/-- The tag loop of `Handle`: `for _, tag := range tags`. -/
def tagLoop (gw : Gateway) (config : Config) (retentionDate : Time) :
    RunState → List Tag → LoopResult
  | st, [] => LoopResult.done st
  | st, tag :: tags =>
    match processTag gw config retentionDate st tag with
    | .error err => LoopResult.panicked err st
    | .ok st1 => tagLoop gw config retentionDate st1 tags

/-- The body of the image loop of `Handle` (handler.go, lines 186-222). -/
def processImage (gw : Gateway) (config : Config) (retentionDate : Time) (fuel : Nat)
    (st : RunState) (image : Image) : LoopResult :=
  match RegistryClient.ListTags gw config image fuel st.trace with
  | Walk.running h => LoopResult.outOfFuel { st with trace := h }
  | Walk.returned (.error _) h =>
    LoopResult.done { st with errorImages := st.errorImages + 1, trace := h }
  | Walk.returned (.ok tags) h => tagLoop gw config retentionDate { st with trace := h } tags

/-- The image loop of `Handle`: `for _, image := range images`. -/
def imageLoop (gw : Gateway) (config : Config) (retentionDate : Time) (fuel : Nat) :
    RunState → List Image → LoopResult
  | st, [] => LoopResult.done st
  | st, image :: images =>
    match processImage gw config retentionDate fuel st image with
    | LoopResult.done st1 => imageLoop gw config retentionDate fuel st1 images
    | r => r

/-- How a run of `Handle` stands after the given fuel: it panicked with an
error, it reached the summary with the final statistics, or a listing loop is
still running; each with the calls made so far. -/
inductive Outcome where
  | panic (err : String) (trace : Trace)
  | summary (st : RunState)
  | running (trace : Trace)
  deriving DecidableEq, Repr

/-- The statistics at the start of `Handle`, after the calls already made. -/
def RunState.start (h : Trace) : RunState :=
  { errorImages := 0, deletedTags := 0, errorTags := 0, preservedTags := 0, skippedTags := 0,
    trace := h }

/-- The retention date of `Handle`: `time.Now().AddDate(0, 0, -config.RetentionDays)`. -/
def retentionDateOf (config : Config) (clock : Clock) : Time :=
  clock.AddDate clock.Now 0 0 (-config.RetentionDays)

/-- The function `Handle` of handler.go, run with the given fuel for each
listing loop. -/
def Handle (gw : Gateway) (config : Config) (clock : Clock) (fuel : Nat) : Outcome :=
  let retentionDate := retentionDateOf config clock
  match RegistryClient.getNamespace gw config [] with
  | (.error err, h) => Outcome.panic err h
  | (.ok ns, h) =>
    match RegistryClient.ListImages gw config ns fuel h with
    | Walk.running h => Outcome.running h
    | Walk.returned (.error err) h => Outcome.panic err h
    | Walk.returned (.ok images) h =>
      match imageLoop gw config retentionDate fuel (RunState.start h) images with
      | LoopResult.done st => Outcome.summary st
      | LoopResult.panicked err st => Outcome.panic err st.trace
      | LoopResult.outOfFuel st => Outcome.running st.trace

/-! ## Specification-side definitions -/

/-- The three verdicts of the retention policy. -/
inductive Verdict where
  | Delete
  | Preserve
  | Skip
  deriving DecidableEq, Repr

/-- The retention rule as the specification words it, on a tag's last-update
time and name, in order: a tag whose last update is at or after the cutoff is
skipped; otherwise a tag whose name matches the preservation pattern is
preserved; otherwise the tag is deleted. -/
def evaluate (lastUpdate : Time) (name : String) (retentionCutoff : Time)
    (preservePattern : Regexp) : Verdict :=
  if lastUpdate.unixNano ≥ retentionCutoff.unixNano then Verdict.Skip
  else if preservePattern.MatchString name then Verdict.Preserve
  else Verdict.Delete

/-- The verdict of the rule on a tag; none for a tag without a last-update
time, on which the rule says nothing. -/
def Tag.verdict (tag : Tag) (retentionCutoff : Time) (preservePattern : Regexp) :
    Option Verdict :=
  tag.UpdatedAt.map (fun t => evaluate t tag.Name retentionCutoff preservePattern)

/-- The calls made when a run stands at the outcome. -/
def Outcome.trace : Outcome → Trace
  | .panic _ h => h
  | .summary st => st.trace
  | .running h => h

/-- The state a loop has reached. -/
def LoopResult.state : LoopResult → RunState
  | .done st => st
  | .panicked _ st => st
  | .outOfFuel st => st

/-- The result a listing has returned, if it has. -/
def Walk.result {α : Type} : Walk α → Option (Except String (List α))
  | .returned r _ => some r
  | .running _ => none

/-- The calls made when a listing stands. -/
def Walk.trace {α : Type} : Walk α → Trace
  | .returned _ h => h
  | .running h => h

/-- The tags a listing has returned: none when it failed or is still running. -/
def Walk.tags : Walk Tag → List Tag
  | .returned (.ok tags) _ => tags
  | _ => []

/-- The delete requests of a history, in order. -/
def deleteCalls : Trace → List DeleteTagRequest
  | [] => []
  | Call.deleteTag req :: rest => req :: deleteCalls rest
  | _ :: rest => deleteCalls rest

/-- The tag-listing and delete calls of a history, in order. -/
def tagCalls : Trace → List Call
  | [] => []
  | Call.listTags req :: rest => Call.listTags req :: tagCalls rest
  | Call.deleteTag req :: rest => Call.deleteTag req :: tagCalls rest
  | _ :: rest => tagCalls rest

/-- The delete request that `RegistryClient.DeleteTag` builds for a tag. -/
def deleteRequestOf (config : Config) (tag : Tag) : DeleteTagRequest :=
  { Region := config.Region, TagID := tag.ID }

/-- The tag listings that the image loop makes, in order, each made in the
history that the run has reached when it makes it; the loop makes no further
listing once it has panicked or a listing is still running. -/
def tagWalks (gw : Gateway) (config : Config) (retentionDate : Time) (fuel : Nat) :
    RunState → List Image → List (Walk Tag)
  | _, [] => []
  | st, image :: images =>
    RegistryClient.ListTags gw config image fuel st.trace ::
    (match processImage gw config retentionDate fuel st image with
      | LoopResult.done st1 => tagWalks gw config retentionDate fuel st1 images
      | _ => [])

/-- The tags of a listing that the tag loop evaluates: those before the first
tag without a last-update time, on which it panics. -/
def evaluatedPrefix (tags : List Tag) : List Tag :=
  tags.takeWhile (fun t => t.UpdatedAt.isSome)

/-- The tags that the successful tag listings of the image loop return, in
image order then listing order. -/
def listedTags (gw : Gateway) (config : Config) (retentionDate : Time) (fuel : Nat)
    (st : RunState) (images : List Image) : List Tag :=
  (tagWalks gw config retentionDate fuel st images).flatMap Walk.tags

/-- The tags that the image loop has evaluated, in order. -/
def evaluatedOf (gw : Gateway) (config : Config) (retentionDate : Time) (fuel : Nat)
    (st : RunState) (images : List Image) : List Tag :=
  (tagWalks gw config retentionDate fuel st images).flatMap (fun w => evaluatedPrefix w.tags)

/-- The tag listings that a run of `Handle` makes: those of its image loop,
none when the run does not get to the loop. -/
def runWalks (gw : Gateway) (config : Config) (clock : Clock) (fuel : Nat) : List (Walk Tag) :=
  match RegistryClient.getNamespace gw config [] with
  | (.error _, _) => []
  | (.ok ns, h) =>
    match RegistryClient.ListImages gw config ns fuel h with
    | Walk.returned (.ok images) h =>
      tagWalks gw config (retentionDateOf config clock) fuel (RunState.start h) images
    | _ => []

/-- The tags enumerated by a run of `Handle`: those that its successful tag
listings return. -/
def enumeratedTags (gw : Gateway) (config : Config) (clock : Clock) (fuel : Nat) : List Tag :=
  (runWalks gw config clock fuel).flatMap Walk.tags

/-- The tags evaluated by a run of `Handle`: of each successful tag listing,
the tags before the first one without a last-update time. -/
def evaluatedTags (gw : Gateway) (config : Config) (clock : Clock) (fuel : Nat) : List Tag :=
  (runWalks gw config clock fuel).flatMap (fun w => evaluatedPrefix w.tags)

/-- The tags among the given ones that the retention rule gives the verdict
Delete. -/
def deleteVerdicts (config : Config) (retentionDate : Time) (tags : List Tag) : List Tag :=
  tags.filter (fun t => t.verdict retentionDate config.PreserveTagPatterns = some Verdict.Delete)

/-- Page `page` (1-indexed) of a listing served in pages of `pageSize` items:
empty before the first page and past the end. -/
def servePage {α : Type} (xs : List α) (pageSize : Nat) (page : Int) : List α :=
  if page < 1 then [] else (xs.drop (pageSize * (page.toNat - 1))).take pageSize

/-- A gateway whose tag listings and deletions answer a request the same way
whatever calls came before. -/
def Gateway.Stateless (gw : Gateway) : Prop :=
  (∀ h req, gw.ListTags h req = gw.ListTags [] req) ∧
  (∀ h req, gw.DeleteTag h req = gw.DeleteTag [] req)

/-- The pagination loop shared by `ListImages` and `ListTags`, over any item
type: `fetch` is the gateway operation, `mkCall` the call it records, and
`wrapErr` the message the error is wrapped in. -/
def pagedLoop {α : Type} (fetch : Trace → Int → Except String (List α)) (mkCall : Int → Call)
    (wrapErr : String → String) : Nat → Int → List α → Trace → Walk α
  | 0, _, _, h => Walk.running h
  | fuel + 1, page, acc, h =>
    match fetch h page with
    | .error err => Walk.returned (.error (wrapErr err)) (h ++ [mkCall page])
    | .ok items =>
      if items.length < 100 then Walk.returned (.ok (acc ++ items)) (h ++ [mkCall page])
      else pagedLoop fetch mkCall wrapErr fuel (wrapInt32 (page + 1)) (acc ++ items)
        (h ++ [mkCall page])

/-- The request `ListImages` makes for a page. -/
def imagesRequest (config : Config) (ns : Namespace) (page : Int) : ListImagesRequest :=
  { Region := config.Region, NamespaceID := ns.ID, PageSize := 100, Page := page }

/-- The request `ListTags` makes for a page. -/
def tagsRequest (config : Config) (image : Image) (page : Int) : ListTagsRequest :=
  { Region := config.Region, ImageID := image.ID, PageSize := 100, Page := page }

/-- The request `getNamespace` makes. -/
def namespacesRequest (config : Config) : ListNamespacesRequest :=
  { Region := config.Region, ProjectID := config.ProjectID, Name := config.RegistryNamespace }

/-- The number of tags counted by the four tag counters. -/
def RunState.tagCount (st : RunState) : Nat :=
  st.deletedTags + st.preservedTags + st.skippedTags + st.errorTags

/-- Two run states have done the same work on tags: the same four tag counters
and the same delete calls. -/
def RunState.sameTagWork (a b : RunState) : Prop :=
  a.deletedTags = b.deletedTags ∧ a.preservedTags = b.preservedTags ∧
  a.skippedTags = b.skippedTags ∧ a.errorTags = b.errorTags ∧
  deleteCalls a.trace = deleteCalls b.trace

/-- The first alternative of `DefaultTagPattern`, `^latest((-.+)?)$`, as it
compiles. -/
def latestBranch : Regexp :=
  .cat .bot (.cat (.lit 'l') (.cat (.lit 'a') (.cat (.lit 't') (.cat (.lit 'e') (.cat (.lit 's')
    (.cat (.lit 't') (.cat (.quest (.cat (.lit '-') (.plus .anyNotNL))) .eot)))))))

/-- The work on tags between two states of a run is that of the given tags:
each counted once, the tags with verdict Delete counted as deleted or in
error, and, when dry-run is off, one delete call for each of them, in order. -/
def TagWork (config : Config) (retentionDate : Time) (st st1 : RunState) (tags : List Tag) :
    Prop :=
  st1.tagCount = st.tagCount + tags.length ∧
  st1.deletedTags + st1.errorTags =
    st.deletedTags + st.errorTags + (deleteVerdicts config retentionDate tags).length ∧
  (config.DryRun = false →
    deleteCalls st1.trace = deleteCalls st.trace ++
      (deleteVerdicts config retentionDate tags).map (deleteRequestOf config)) ∧
  (config.DryRun = true →
    deleteCalls st1.trace = deleteCalls st.trace ∧ st1.errorTags = st.errorTags)

/-- The tag listing of the image returns, whatever calls came before it is
asked after, a list of tags that all have a last-update time. -/
def Listed (gw : Gateway) (config : Config) (fuel : Nat) (image : Image) : Prop :=
  ∃ tags, (RegistryClient.ListTags gw config image fuel []).result = some (.ok tags) ∧
    ∀ tag ∈ tags, tag.UpdatedAt.isSome = true

/-! ## Concrete inputs -/

/-- A destructive configuration: 30 days, no dry run, the empty pattern. -/
def sampleConfig : Config :=
  { AccessKey := "key", SecretKey := "secret", Region := "fr-par", ProjectID := "project",
    RegistryNamespace := "main", RetentionDays := 30, DryRun := false,
    PreserveTagPatterns := Regexp.empty }

def sampleNamespace : Namespace := { ID := "ns-1", Name := "main" }

def sampleImage : Image := { ID := "img-1", Name := "app" }

/-- A gateway that serves the given image and tag listings in pages of the
requested size, finds the sample namespace and deletes without error. -/
def pagedGateway (images : List Image) (tags : List Tag) : Gateway :=
  { ListNamespaces := fun _ _ => .ok [sampleNamespace]
    ListImages := fun _ req => .ok (servePage images req.PageSize req.Page)
    ListTags := fun _ req => .ok (servePage tags req.PageSize req.Page)
    DeleteTag := fun _ _ => .ok () }

/-- A listing of 214748364701 images: one more than 100 pages times the
largest `int32`. -/
def overflowListing : List Image := List.replicate 214748364701 sampleImage

/-- A tag named `n-i`, last updated at instant `i`. -/
def numberedTag (i : Nat) : Tag :=
  { ID := "tag-" ++ toString i, Name := "n-" ++ toString i, UpdatedAt := some { unixNano := i } }

/-- A clock at instant 130 whose `AddDate` moves an instant by the number of
days, one unit a day: with 30 days of retention the retention date is 100. -/
def sampleClock : Clock :=
  { Now := { unixNano := 130 }, AddDate := fun t _ _ days => { unixNano := t.unixNano + days } }

/-- A destructive configuration that preserves the names starting with `k`. -/
def keepConfig : Config :=
  { sampleConfig with PreserveTagPatterns := Regexp.cat Regexp.bot (Regexp.lit 'k') }

/-- The same configuration in dry-run mode. -/
def dryConfig : Config := { keepConfig with DryRun := true }

def imageA : Image := { ID := "img-a", Name := "a" }

def imageB : Image := { ID := "img-b", Name := "b" }

def imageC : Image := { ID := "img-c", Name := "c" }

/-- The tags of image `a`: two old unprotected tags, an old protected one and
one last updated exactly at the retention date. -/
def tagsA : List Tag :=
  [{ ID := "t1", Name := "build-1", UpdatedAt := some { unixNano := 10 } },
   { ID := "t2", Name := "keep", UpdatedAt := some { unixNano := 10 } },
   { ID := "t3", Name := "build-2", UpdatedAt := some { unixNano := 100 } },
   { ID := "t4", Name := "build-3", UpdatedAt := some { unixNano := 20 } }]

/-- The tags of image `c`: one old unprotected tag. -/
def tagsC : List Tag :=
  [{ ID := "t5", Name := "build-4", UpdatedAt := some { unixNano := 5 } }]

/-- A gateway with the images `a`, `b`, `c`: listing the tags of `b` fails,
and so does deleting tag `t4`. -/
def sampleGateway : Gateway :=
  { ListNamespaces := fun _ _ => .ok [sampleNamespace]
    ListImages := fun _ req => .ok (servePage [imageA, imageB, imageC] req.PageSize req.Page)
    ListTags := fun _ req =>
      if req.ImageID = "img-a" then .ok (servePage tagsA req.PageSize req.Page)
      else if req.ImageID = "img-c" then .ok (servePage tagsC req.PageSize req.Page)
      else .error "unavailable"
    DeleteTag := fun _ req => if req.TagID = "t4" then .error "conflict" else .ok () }

/-- An environment with the five required variables set, DRY_RUN set to
`false` and RETENTION_DAYS to `7`; PRESERVE_TAG_PATTERNS is unset. -/
def sampleEnv (name : String) : String :=
  if name = "REGISTRY_ACCESS_KEY" then "key"
  else if name = "REGISTRY_PROJECT_ID" then "project"
  else if name = "REGISTRY_REGION" then "fr-par"
  else if name = "REGISTRY_NAMESPACE" then "main"
  else if name = "REGISTRY_SECRET_KEY" then "secret"
  else if name = "DRY_RUN" then "false"
  else if name = "RETENTION_DAYS" then "7"
  else ""

/-- A gateway that finds the namespace, lists one image, and answers every
tag-listing request, whatever the page, with a full page of 100 tags; nothing
ever fails. -/
def fullPagesGateway : Gateway :=
  { ListNamespaces := fun _ _ => .ok [sampleNamespace]
    ListImages := fun _ req => .ok (servePage [sampleImage] req.PageSize req.Page)
    ListTags := fun _ _ => .ok (List.replicate 100 (numberedTag 0))
    DeleteTag := fun _ _ => .ok () }

/-- A gateway whose namespace lookup finds nothing. -/
def noNamespaceGateway : Gateway :=
  { sampleGateway with ListNamespaces := fun _ _ => .ok [] }

/-- A gateway whose image listing fails. -/
def noImagesGateway : Gateway :=
  { sampleGateway with ListImages := fun _ _ => .error "timeout" }

/-- The sample environment with PRESERVE_TAG_PATTERNS set to `(`, which is not
a regular expression. -/
def badPatternEnv (name : String) : String :=
  if name = "PRESERVE_TAG_PATTERNS" then "(" else sampleEnv name

/-- A tag last updated at instant 0, before the cutoff 100 of the examples. -/
def oldTag (name : String) : Tag := { ID := "id-" ++ name, Name := name, UpdatedAt := some { unixNano := 0 } }

/-- A gateway with one image whose listing returns a tag without a last-update
time followed by the old unprotected tag `build-9`. -/
def nilTagGateway : Gateway :=
  { ListNamespaces := fun _ _ => .ok [sampleNamespace]
    ListImages := fun _ req => .ok (servePage [imageA] req.PageSize req.Page)
    ListTags := fun _ req =>
      .ok (servePage [{ ID := "t0", Name := "broken", UpdatedAt := none }, oldTag "build-9"]
        req.PageSize req.Page)
    DeleteTag := fun _ _ => .ok () }

/-- A rate-limited gateway over the given images: the tag listing of `b` fails
and those of the other images return one old unprotected tag each, whatever
came before; a deletion fails once six calls have been made. -/
def rateLimitedGateway (images : List Image) : Gateway :=
  { ListNamespaces := fun _ _ => .ok [sampleNamespace]
    ListImages := fun _ req => .ok (servePage images req.PageSize req.Page)
    ListTags := fun _ req =>
      if req.ImageID = "img-b" then .error "unavailable"
      else .ok (servePage [oldTag ("build-" ++ req.ImageID)] req.PageSize req.Page)
    DeleteTag := fun h _ => if h.length ≥ 6 then .error "too many requests" else .ok () }

/-- A gateway that answers the same way whatever came before: the tag listing
of `b` fails, that of `c` returns a tag without a last-update time. -/
def nilAfterErrorGateway : Gateway :=
  { ListNamespaces := fun _ _ => .ok [sampleNamespace]
    ListImages := fun _ req => .ok (servePage [imageA, imageB, imageC] req.PageSize req.Page)
    ListTags := fun _ req =>
      if req.ImageID = "img-a" then .ok (servePage tagsA req.PageSize req.Page)
      else if req.ImageID = "img-c" then
        .ok (servePage [{ ID := "t0", Name := "broken", UpdatedAt := none }] req.PageSize req.Page)
      else .error "unavailable"
    DeleteTag := fun _ _ => .ok () }

/-! ## The pagination loops -/

theorem ListImages_loop_eq (gw : Gateway) (config : Config) (ns : Namespace) (fuel : Nat)
    (page : Int) (acc : List Image) (h : Trace) :
    RegistryClient.ListImages.loop gw config ns fuel page acc h =
      pagedLoop (fun h p => gw.ListImages h (imagesRequest config ns p))
        (fun p => Call.listImages (imagesRequest config ns p))
        (fun err => "failed to list images: " ++ err) fuel page acc h := by
  induction fuel generalizing page acc h with
  | zero => rfl
  | succ n ih =>
    simp only [RegistryClient.ListImages.loop, pagedLoop, imagesRequest]
    cases hq : gw.ListImages h
        { Region := config.Region, NamespaceID := ns.ID, PageSize := 100, Page := page } with
    | error e => rfl
    | ok images =>
      simp only []
      split
      · rfl
      · rw [ih]; rfl

theorem ListTags_loop_eq (gw : Gateway) (config : Config) (image : Image) (fuel : Nat)
    (page : Int) (acc : List Tag) (h : Trace) :
    RegistryClient.ListTags.loop gw config image fuel page acc h =
      pagedLoop (fun h p => gw.ListTags h (tagsRequest config image p))
        (fun p => Call.listTags (tagsRequest config image p))
        (fun err => "failed to list tags for image " ++ image.Name ++ ": " ++ err)
        fuel page acc h := by
  induction fuel generalizing page acc h with
  | zero => rfl
  | succ n ih =>
    simp only [RegistryClient.ListTags.loop, pagedLoop, tagsRequest]
    cases hq : gw.ListTags h
        { Region := config.Region, ImageID := image.ID, PageSize := 100, Page := page } with
    | error e => rfl
    | ok tags =>
      simp only []
      split
      · rfl
      · rw [ih]; rfl

theorem wrapInt32_of_range (x : Int) (h1 : -2147483648 ≤ x) (h2 : x ≤ 2147483647) :
    wrapInt32 x = x := by
  unfold wrapInt32
  omega

theorem servePage_full {α : Type} (xs : List α) (k : Nat) (hk : (k + 1) * 100 ≤ xs.length) :
    servePage xs 100 ((k : Int) + 1) = (xs.drop (100 * k)).take 100 ∧
    (servePage xs 100 ((k : Int) + 1)).length = 100 := by
  have hp : ¬ ((k : Int) + 1 < 1) := by omega
  have ht : ((k : Int) + 1).toNat - 1 = k := by omega
  unfold servePage
  rw [if_neg hp, ht]
  refine ⟨rfl, ?_⟩
  rw [List.length_take, List.length_drop]
  omega

theorem take_page_succ {α : Type} (xs : List α) (k d : Nat) :
    List.take 100 (List.drop (100 * k) xs) ++ List.take (100 * d) (List.drop (100 * (k + 1)) xs) =
      List.take (100 * (d + 1)) (List.drop (100 * k) xs) := by
  have h1 : List.drop (100 * (k + 1)) xs = List.drop 100 (List.drop (100 * k) xs) := by
    rw [List.drop_drop]
    have : 100 * (k + 1) = 100 * k + 100 := by omega
    rw [this]
  have h2 : 100 * (d + 1) = 100 + 100 * d := by omega
  rw [h1, h2, List.take_add]

theorem range_calls_succ (mkCall : Int → Call) (k d : Nat) :
    mkCall (wrapInt32 ((k : Int) + 1)) ::
        List.map (fun i : Nat => mkCall (wrapInt32 (((k + 1 : Nat) : Int) + (i : Int) + 1)))
          (List.range d) =
      List.map (fun i : Nat => mkCall (wrapInt32 ((k : Int) + (i : Int) + 1)))
        (List.range (d + 1)) := by
  rw [List.range_succ_eq_map, List.map_cons, List.map_map]
  have h0 : (k : Int) + ((0 : Nat) : Int) + 1 = (k : Int) + 1 := by simp
  rw [h0]
  have hf : (fun i : Nat => mkCall (wrapInt32 (((k + 1 : Nat) : Int) + (i : Int) + 1))) =
      ((fun i : Nat => mkCall (wrapInt32 ((k : Int) + (i : Int) + 1))) ∘ Nat.succ) := by
    funext i
    have : ((k + 1 : Nat) : Int) + (i : Int) + 1 = (k : Int) + ((Nat.succ i : Nat) : Int) + 1 := by
      push_cast
      ring
    simp only [Function.comp, this]
  rw [hf]

/-- While the backend has full pages, the loop fetches them one after the
other: `d` iterations from page `k + 1` append items `100 k` to `100 (k + d)`
and record the `d` requests. -/
theorem pagedLoop_full_pages {α : Type} (fetch : Trace → Int → Except String (List α))
    (mkCall : Int → Call) (wrapErr : String → String) (xs : List α)
    (hfetch : ∀ h page, fetch h page = .ok (servePage xs 100 page)) :
    ∀ (d k f : Nat) (acc : List α) (h : Trace), (k + d) * 100 ≤ xs.length →
      k + d ≤ 2147483647 →
      pagedLoop fetch mkCall wrapErr (d + f) (wrapInt32 ((k : Int) + 1)) acc h =
        pagedLoop fetch mkCall wrapErr f (wrapInt32 ((k : Int) + (d : Int) + 1))
          (acc ++ (xs.drop (100 * k)).take (100 * d))
          (h ++ (List.range d).map
            (fun i : Nat => mkCall (wrapInt32 ((k : Int) + (i : Int) + 1)))) := by
  intro d
  induction d with
  | zero => intro k f acc h _ _; simp
  | succ d ih =>
    intro k f acc h hlen hk
    have hw : wrapInt32 ((k : Int) + 1) = (k : Int) + 1 :=
      wrapInt32_of_range _ (by omega) (by omega)
    have hfull := servePage_full xs k (by omega)
    have hstep : d + 1 + f = (d + f) + 1 := by omega
    have hnot : ¬ ((List.take 100 (List.drop (100 * k) xs)).length < 100) := by
      rw [← hfull.1, hfull.2]; omega
    rw [hstep, pagedLoop, hfetch]
    simp only []
    rw [hw, hfull.1, if_neg hnot]
    have hk1 : ((k : Int) + 1 + 1) = (((k + 1 : Nat) : Int) + 1) := by push_cast; ring
    rw [hk1, ih (k + 1) f _ _ (by omega) (by omega)]
    have e1 : (((k + 1 : Nat) : Int) + (d : Int) + 1) = ((k : Int) + ((d + 1 : Nat) : Int) + 1) := by
      push_cast; ring
    rw [e1, List.append_assoc, take_page_succ, List.append_assoc, List.singleton_append,
      ← hw, range_calls_succ]

theorem wrapInt32_overflow : wrapInt32 (((0 : Nat) : Int) + ((2147483647 : Nat) : Int) + 1) =
    -2147483648 := by
  norm_num [wrapInt32]

theorem servePage_last {α : Type} (xs : List α) (hN : xs.length ≤ 214748364700) :
    (servePage xs 100 (wrapInt32 ((((xs.length / 100 : Nat)) : Int) + 1))).length < 100 ∧
    xs.take (100 * (xs.length / 100)) ++
      servePage xs 100 (wrapInt32 ((((xs.length / 100 : Nat)) : Int) + 1)) = xs := by
  have hm : xs.length / 100 ≤ 2147483647 := by omega
  rcases Nat.lt_or_ge (xs.length / 100) 2147483647 with hlt | hge
  · have hw : wrapInt32 ((((xs.length / 100 : Nat)) : Int) + 1) = ((xs.length / 100 : Nat) : Int) + 1 :=
      wrapInt32_of_range _ (by omega) (by omega)
    have hp : ¬ ((((xs.length / 100 : Nat)) : Int) + 1 < 1) := by omega
    have ht : ((((xs.length / 100 : Nat)) : Int) + 1).toNat - 1 = xs.length / 100 := by omega
    rw [hw]
    unfold servePage
    rw [if_neg hp, ht]
    constructor
    · rw [List.length_take, List.length_drop]
      omega
    · rw [← List.take_add]
      exact List.take_of_length_le (by omega)
  · have hmeq : xs.length / 100 = 2147483647 := by omega
    have hw : wrapInt32 ((((xs.length / 100 : Nat)) : Int) + 1) = -2147483648 := by
      rw [hmeq]
      norm_num [wrapInt32]
    rw [hw]
    have hp : ((-2147483648 : Int) < 1) := by omega
    unfold servePage
    rw [if_pos hp]
    constructor
    · simp
    · rw [List.append_nil]
      exact List.take_of_length_le (by omega)

/-- Against a backend that serves a listing of at most 214748364700 items in
pages of 100, the loop returns the whole listing after one request more than
there are full pages. -/
theorem pagedLoop_paged {α : Type} (fetch : Trace → Int → Except String (List α))
    (mkCall : Int → Call) (wrapErr : String → String) (xs : List α)
    (hfetch : ∀ h page, fetch h page = .ok (servePage xs 100 page))
    (hN : xs.length ≤ 214748364700) (fuel : Nat) (hfuel : xs.length / 100 < fuel) (h : Trace) :
    pagedLoop fetch mkCall wrapErr fuel 1 [] h =
      Walk.returned (.ok xs) (h ++ (List.range (xs.length / 100 + 1)).map
        (fun i : Nat => mkCall (wrapInt32 ((i : Int) + 1)))) := by
  obtain ⟨f, rfl⟩ : ∃ f, fuel = xs.length / 100 + (f + 1) := ⟨fuel - xs.length / 100 - 1, by omega⟩
  have h1 : (1 : Int) = wrapInt32 (((0 : Nat) : Int) + 1) := by norm_num [wrapInt32]
  have hfull := pagedLoop_full_pages fetch mkCall wrapErr xs hfetch (xs.length / 100) 0 (f + 1) [] h
    (by omega) (by omega)
  have hlast := servePage_last xs hN
  rw [h1, hfull, pagedLoop, hfetch]
  simp only [Nat.cast_zero, zero_add, Nat.mul_zero, List.drop_zero, List.nil_append]
  rw [if_pos hlast.1, hlast.2, List.range_succ, List.map_append, List.append_assoc]
  rfl

/-- Past 214748364700 items the page counter overflows: the loop returns the
first 214748364700 items only, when the fuel lasts, and nothing otherwise. -/
theorem pagedLoop_overflow {α : Type} (fetch : Trace → Int → Except String (List α))
    (mkCall : Int → Call) (wrapErr : String → String) (xs : List α)
    (hfetch : ∀ h page, fetch h page = .ok (servePage xs 100 page))
    (hN : 214748364700 ≤ xs.length) (fuel : Nat) (h : Trace) :
    (fuel ≤ 2147483647 → (pagedLoop fetch mkCall wrapErr fuel 1 [] h).result = none) ∧
    (2147483647 < fuel →
      (pagedLoop fetch mkCall wrapErr fuel 1 [] h).result =
        some (.ok (xs.take 214748364700))) := by
  have h1 : (1 : Int) = wrapInt32 (((0 : Nat) : Int) + 1) := by norm_num [wrapInt32]
  constructor
  · intro hle
    have hfull := pagedLoop_full_pages fetch mkCall wrapErr xs hfetch fuel 0 0 [] h
      (by omega) (by omega)
    rw [Nat.add_zero] at hfull
    rw [h1, hfull]
    rfl
  · intro hgt
    obtain ⟨f, rfl⟩ : ∃ f, fuel = 2147483647 + (f + 1) := ⟨fuel - 2147483647 - 1, by omega⟩
    have hfull := pagedLoop_full_pages fetch mkCall wrapErr xs hfetch 2147483647 0 (f + 1) [] h
      (by omega) (by omega)
    have hp : ((-2147483648 : Int) < 1) := by omega
    rw [h1, hfull, wrapInt32_overflow, pagedLoop, hfetch]
    simp only [Nat.mul_zero, List.drop_zero, List.nil_append]
    unfold servePage
    rw [if_pos hp]
    simp [Walk.result]

/-! ## C3: completeness of the pagination walk -/

/-- C3 (amended): when the backend serves a listing of N items in consecutive
pages of 100 (an empty page outside them) and N is at most 214748364700, which
is 100 times the largest `int32` page number, `ListImages` and `ListTags`
return, for any fuel above N / 100, exactly the N items in their order, after
N / 100 + 1 requests: the pages 1, 2, ... in turn, the last of which holds fewer
than 100 items (none when N is a multiple of 100, N = 0 included). -/
theorem pagination_walk_complete (gw : Gateway) (config : Config) (ns : Namespace)
    (image : Image) (images : List Image) (tags : List Tag) (fuel : Nat) (h : Trace)
    (hI : ∀ h page, gw.ListImages h (imagesRequest config ns page) =
      .ok (servePage images 100 page))
    (hT : ∀ h page, gw.ListTags h (tagsRequest config image page) =
      .ok (servePage tags 100 page))
    (hNI : images.length ≤ 214748364700) (hNT : tags.length ≤ 214748364700)
    (hfI : images.length / 100 < fuel) (hfT : tags.length / 100 < fuel) :
    RegistryClient.ListImages gw config ns fuel h =
      Walk.returned (.ok images) (h ++ (List.range (images.length / 100 + 1)).map
        (fun i : Nat => Call.listImages (imagesRequest config ns (wrapInt32 ((i : Int) + 1))))) ∧
    RegistryClient.ListTags gw config image fuel h =
      Walk.returned (.ok tags) (h ++ (List.range (tags.length / 100 + 1)).map
        (fun i : Nat => Call.listTags (tagsRequest config image (wrapInt32 ((i : Int) + 1))))) ∧
    (servePage images 100 (wrapInt32 (((images.length / 100 : Nat) : Int) + 1))).length
      = images.length % 100 ∧
    (servePage tags 100 (wrapInt32 (((tags.length / 100 : Nat) : Int) + 1))).length
      = tags.length % 100 := by
  refine ⟨?_, ?_, ?_, ?_⟩
  · unfold RegistryClient.ListImages
    rw [ListImages_loop_eq]
    exact pagedLoop_paged _ _ _ images hI hNI fuel hfI h
  · unfold RegistryClient.ListTags
    rw [ListTags_loop_eq]
    exact pagedLoop_paged _ _ _ tags hT hNT fuel hfT h
  · have hl := servePage_last images hNI
    have := congrArg List.length hl.2
    rw [List.length_append, List.length_take] at this
    omega
  · have hl := servePage_last tags hNT
    have := congrArg List.length hl.2
    rw [List.length_append, List.length_take] at this
    omega

/-- The walk over 200 images and 3 tags: three image requests (two full pages
and an empty one) and one tag request. -/
theorem pagination_walk_complete_witness :
    (List.replicate 200 sampleImage).length ≤ 214748364700 ∧
    [numberedTag 1, numberedTag 2, numberedTag 3].length ≤ 214748364700 ∧
    RegistryClient.ListImages
        (pagedGateway (List.replicate 200 sampleImage) [numberedTag 1, numberedTag 2, numberedTag 3])
        sampleConfig sampleNamespace 3 [] =
      Walk.returned (.ok (List.replicate 200 sampleImage))
        [Call.listImages (imagesRequest sampleConfig sampleNamespace 1),
         Call.listImages (imagesRequest sampleConfig sampleNamespace 2),
         Call.listImages (imagesRequest sampleConfig sampleNamespace 3)] ∧
    RegistryClient.ListTags
        (pagedGateway (List.replicate 200 sampleImage) [numberedTag 1, numberedTag 2, numberedTag 3])
        sampleConfig sampleImage 3 [] =
      Walk.returned (.ok [numberedTag 1, numberedTag 2, numberedTag 3])
        [Call.listTags (tagsRequest sampleConfig sampleImage 1)] := by
  have hw := pagination_walk_complete
    (pagedGateway (List.replicate 200 sampleImage) [numberedTag 1, numberedTag 2, numberedTag 3])
    sampleConfig sampleNamespace sampleImage (List.replicate 200 sampleImage)
    [numberedTag 1, numberedTag 2, numberedTag 3] 3 []
    (fun _ _ => rfl) (fun _ _ => rfl) (by rw [List.length_replicate]; omega) (by decide)
    (by rw [List.length_replicate]; omega) (by decide)
  refine ⟨by rw [List.length_replicate]; omega, by decide, ?_, ?_⟩
  · rw [hw.1, List.length_replicate]
    rfl
  · rw [hw.2.1]
    rfl

/-- C3 as stated fails past the range of the `int32` page counter: for a
listing of 214748364701 images served in pages of 100, `ListImages` never
returns the listing; once the fuel lasts it returns the first 214748364700
images, the page counter having wrapped to a negative page. -/
theorem pagination_walk_overflow_counterexample :
    (¬ ∃ fuel h, RegistryClient.ListImages (pagedGateway overflowListing []) sampleConfig
        sampleNamespace fuel [] = Walk.returned (.ok overflowListing) h) ∧
    (RegistryClient.ListImages (pagedGateway overflowListing []) sampleConfig
        sampleNamespace 2147483648 []).result =
      some (.ok (List.replicate 214748364700 sampleImage)) := by
  have hlen : overflowListing.length = 214748364701 := List.length_replicate _ _
  have hov := fun fuel => pagedLoop_overflow
    (fun h p => (pagedGateway overflowListing []).ListImages h
      (imagesRequest sampleConfig sampleNamespace p))
    (fun p => Call.listImages (imagesRequest sampleConfig sampleNamespace p))
    (fun err => "failed to list images: " ++ err) overflowListing (fun _ _ => rfl)
    (by rw [hlen]; omega) fuel []
  have htake : List.take 214748364700 overflowListing = List.replicate 214748364700 sampleImage := by
    unfold overflowListing
    rw [List.take_replicate]
    congr 1
  constructor
  · rintro ⟨fuel, h, hrun⟩
    unfold RegistryClient.ListImages at hrun
    rw [ListImages_loop_eq] at hrun
    rcases Nat.lt_or_ge 2147483647 fuel with hgt | hle
    · have h2 := (hov fuel).2 hgt
      rw [hrun] at h2
      simp only [Walk.result, Option.some.injEq, Except.ok.injEq] at h2
      have h3 := congrArg List.length h2
      rw [hlen, List.length_take, hlen] at h3
      omega
    · have h1 := (hov fuel).1 hle
      rw [hrun] at h1
      exact Option.noConfusion h1
  · unfold RegistryClient.ListImages
    rw [ListImages_loop_eq, (hov 2147483648).2 (by omega), htake]

/-! ## C1: the per-tag decision -/

theorem Before_iff (t u : Time) : t.Before u = true ↔ ¬ (t.unixNano ≥ u.unixNano) := by
  unfold Time.Before
  rw [decide_eq_true_iff]
  omega

/-- On a tag without a last-update time the body of the tag loop panics. -/
theorem processTag_none (gw : Gateway) (config : Config) (retentionDate : Time)
    (st : RunState) (tag : Tag) (hnil : tag.UpdatedAt = none) :
    processTag gw config retentionDate st tag = .error nilDereference := by
  unfold processTag
  rw [hnil]

/-- On a tag with a last-update time the body of the tag loop is a match on
the verdict of the ordered rule. -/
theorem processTag_eq_match (gw : Gateway) (config : Config) (retentionDate : Time)
    (st : RunState) (tag : Tag) (t : Time) (ht : tag.UpdatedAt = some t) :
    processTag gw config retentionDate st tag =
      .ok (match evaluate t tag.Name retentionDate config.PreserveTagPatterns with
        | Verdict.Skip => { st with skippedTags := st.skippedTags + 1 }
        | Verdict.Preserve => { st with preservedTags := st.preservedTags + 1 }
        | Verdict.Delete =>
          match RegistryClient.DeleteTag gw config st.trace tag with
          | (some _, h) => { st with errorTags := st.errorTags + 1, trace := h }
          | (none, h) => { st with deletedTags := st.deletedTags + 1, trace := h }) := by
  unfold evaluate processTag
  rw [ht]
  simp only []
  by_cases hge : t.unixNano ≥ retentionDate.unixNano
  · have hb : ¬ (t.Before retentionDate = true) := by
      rw [Before_iff]; exact fun hn => hn hge
    rw [if_pos hge, if_neg hb]
  · have hb : t.Before retentionDate = true := (Before_iff _ _).2 hge
    rw [if_neg hge, if_pos hb]
    by_cases hm : config.PreserveTagPatterns.MatchString tag.Name = true
    · rw [if_pos hm, if_pos hm]
    · rw [if_neg hm, if_neg hm]
      rcases RegistryClient.DeleteTag gw config st.trace tag with ⟨_ | e, h⟩ <;> rfl

/-- A tag last updated at or after the retention date is skipped. -/
theorem processTag_of_ge (gw : Gateway) (config : Config) (retentionDate : Time)
    (st : RunState) (tag : Tag) (t : Time) (ht : tag.UpdatedAt = some t)
    (hge : t.unixNano ≥ retentionDate.unixNano) :
    evaluate t tag.Name retentionDate config.PreserveTagPatterns = Verdict.Skip ∧
    processTag gw config retentionDate st tag =
      .ok { st with skippedTags := st.skippedTags + 1 } := by
  have hv : evaluate t tag.Name retentionDate config.PreserveTagPatterns = Verdict.Skip := by
    unfold evaluate; rw [if_pos hge]
  refine ⟨hv, ?_⟩
  rw [processTag_eq_match gw config retentionDate st tag t ht, hv]

/-- An older tag whose name matches the pattern is preserved. -/
theorem processTag_of_match (gw : Gateway) (config : Config) (retentionDate : Time)
    (st : RunState) (tag : Tag) (t : Time) (ht : tag.UpdatedAt = some t)
    (hlt : t.unixNano < retentionDate.unixNano)
    (hm : config.PreserveTagPatterns.MatchString tag.Name = true) :
    evaluate t tag.Name retentionDate config.PreserveTagPatterns = Verdict.Preserve ∧
    processTag gw config retentionDate st tag =
      .ok { st with preservedTags := st.preservedTags + 1 } := by
  have hge : ¬ (t.unixNano ≥ retentionDate.unixNano) := by omega
  have hv : evaluate t tag.Name retentionDate config.PreserveTagPatterns = Verdict.Preserve := by
    unfold evaluate; rw [if_neg hge, if_pos hm]
  refine ⟨hv, ?_⟩
  rw [processTag_eq_match gw config retentionDate st tag t ht, hv]

/-- An older tag whose name does not match the pattern goes to deletion. -/
theorem processTag_of_nomatch (gw : Gateway) (config : Config) (retentionDate : Time)
    (st : RunState) (tag : Tag) (t : Time) (ht : tag.UpdatedAt = some t)
    (hlt : t.unixNano < retentionDate.unixNano)
    (hm : config.PreserveTagPatterns.MatchString tag.Name = false) :
    evaluate t tag.Name retentionDate config.PreserveTagPatterns = Verdict.Delete ∧
    ∃ st1, processTag gw config retentionDate st tag = .ok st1 ∧
      st1.skippedTags = st.skippedTags ∧ st1.preservedTags = st.preservedTags ∧
      st1.deletedTags + st1.errorTags = st.deletedTags + st.errorTags + 1 := by
  have hge : ¬ (t.unixNano ≥ retentionDate.unixNano) := by omega
  have hnm : ¬ (config.PreserveTagPatterns.MatchString tag.Name = true) := by
    rw [hm]; exact Bool.false_ne_true
  have hv : evaluate t tag.Name retentionDate config.PreserveTagPatterns = Verdict.Delete := by
    unfold evaluate; rw [if_neg hge, if_neg hnm]
  refine ⟨hv, ?_⟩
  rw [processTag_eq_match gw config retentionDate st tag t ht, hv]
  rcases RegistryClient.DeleteTag gw config st.trace tag with ⟨_ | e, h⟩
  · exact ⟨_, rfl, rfl, rfl, by show st.deletedTags + 1 + st.errorTags = _; omega⟩
  · exact ⟨_, rfl, rfl, rfl, by show st.deletedTags + (st.errorTags + 1) = _; omega⟩

/-- C1: for every tag with a last-update time, every cutoff and every pattern,
the body of the tag loop acts on the verdict of the ordered rule. A tag last
updated at or after the retention date (the date itself included) is counted
as skipped whatever its name; an older tag whose name matches the pattern is
counted as preserved; any other tag goes to `DeleteTag` and is counted as
deleted or, when the deletion fails, as an error. -/
theorem processTag_follows_rule (gw : Gateway) (config : Config) (retentionDate : Time)
    (st : RunState) (id name : String) (lastUpdate : Time) :
    processTag gw config retentionDate st
        { ID := id, Name := name, UpdatedAt := some lastUpdate } =
      .ok (match evaluate lastUpdate name retentionDate config.PreserveTagPatterns with
        | Verdict.Skip => { st with skippedTags := st.skippedTags + 1 }
        | Verdict.Preserve => { st with preservedTags := st.preservedTags + 1 }
        | Verdict.Delete =>
          match RegistryClient.DeleteTag gw config st.trace
              { ID := id, Name := name, UpdatedAt := some lastUpdate } with
          | (some _, h) => { st with errorTags := st.errorTags + 1, trace := h }
          | (none, h) => { st with deletedTags := st.deletedTags + 1, trace := h }) ∧
    (lastUpdate.unixNano ≥ retentionDate.unixNano →
      evaluate lastUpdate name retentionDate config.PreserveTagPatterns = Verdict.Skip ∧
      processTag gw config retentionDate st
          { ID := id, Name := name, UpdatedAt := some lastUpdate } =
        .ok { st with skippedTags := st.skippedTags + 1 }) ∧
    (lastUpdate = retentionDate →
      processTag gw config retentionDate st
          { ID := id, Name := name, UpdatedAt := some lastUpdate } =
        .ok { st with skippedTags := st.skippedTags + 1 }) ∧
    (lastUpdate.unixNano < retentionDate.unixNano →
      config.PreserveTagPatterns.MatchString name = true →
      evaluate lastUpdate name retentionDate config.PreserveTagPatterns = Verdict.Preserve ∧
      processTag gw config retentionDate st
          { ID := id, Name := name, UpdatedAt := some lastUpdate } =
        .ok { st with preservedTags := st.preservedTags + 1 }) ∧
    (lastUpdate.unixNano < retentionDate.unixNano →
      config.PreserveTagPatterns.MatchString name = false →
      evaluate lastUpdate name retentionDate config.PreserveTagPatterns = Verdict.Delete ∧
      ∃ st1, processTag gw config retentionDate st
          { ID := id, Name := name, UpdatedAt := some lastUpdate } = .ok st1 ∧
        st1.skippedTags = st.skippedTags ∧ st1.preservedTags = st.preservedTags ∧
        st1.deletedTags + st1.errorTags = st.deletedTags + st.errorTags + 1) :=
  ⟨processTag_eq_match gw config retentionDate st
      { ID := id, Name := name, UpdatedAt := some lastUpdate } lastUpdate rfl,
    processTag_of_ge gw config retentionDate st
      { ID := id, Name := name, UpdatedAt := some lastUpdate } lastUpdate rfl,
    fun heq => (processTag_of_ge gw config retentionDate st
      { ID := id, Name := name, UpdatedAt := some lastUpdate } lastUpdate rfl (by rw [heq])).2,
    processTag_of_match gw config retentionDate st
      { ID := id, Name := name, UpdatedAt := some lastUpdate } lastUpdate rfl,
    processTag_of_nomatch gw config retentionDate st
      { ID := id, Name := name, UpdatedAt := some lastUpdate } lastUpdate rfl⟩

set_option maxRecDepth 100000 in
/-- Three tags against the retention date 100: `build-1` goes to deletion,
`keep` is preserved, and `build-2`, last updated at instant 100 exactly, is
skipped. -/
theorem processTag_follows_rule_witness :
    evaluate { unixNano := 0 } "build-1" { unixNano := 100 } keepConfig.PreserveTagPatterns =
      Verdict.Delete ∧
    processTag sampleGateway keepConfig { unixNano := 100 } (RunState.start [])
        { ID := "t2", Name := "keep", UpdatedAt := some { unixNano := 0 } } =
      .ok { RunState.start [] with preservedTags := 1 } ∧
    processTag sampleGateway keepConfig { unixNano := 100 } (RunState.start [])
        { ID := "t3", Name := "build-2", UpdatedAt := some { unixNano := 100 } } =
      .ok { RunState.start [] with skippedTags := 1 } :=
  ⟨((processTag_follows_rule sampleGateway keepConfig { unixNano := 100 } (RunState.start [])
      "t1" "build-1" { unixNano := 0 }).2.2.2.2 (by decide) (by decide)).1,
    ((processTag_follows_rule sampleGateway keepConfig { unixNano := 100 } (RunState.start [])
      "t2" "keep" { unixNano := 0 }).2.2.2.1 (by decide) (by decide)).2,
    (processTag_follows_rule sampleGateway keepConfig { unixNano := 100 } (RunState.start [])
      "t3" "build-2" { unixNano := 100 }).2.2.1 rfl⟩

/-! ## The tag loop -/

theorem deleteCalls_append (a b : Trace) : deleteCalls (a ++ b) = deleteCalls a ++ deleteCalls b := by
  induction a with
  | nil => rfl
  | cons c a ih =>
    cases c <;> simp [deleteCalls, ih]

theorem deleteVerdicts_append (config : Config) (retentionDate : Time) (a b : List Tag) :
    deleteVerdicts config retentionDate (a ++ b) =
      deleteVerdicts config retentionDate a ++ deleteVerdicts config retentionDate b := by
  unfold deleteVerdicts
  exact List.filter_append _ _

theorem deleteVerdicts_singleton (config : Config) (retentionDate : Time) (tag : Tag) (t : Time)
    (ht : tag.UpdatedAt = some t) :
    deleteVerdicts config retentionDate [tag] =
      if evaluate t tag.Name retentionDate config.PreserveTagPatterns = Verdict.Delete
      then [tag] else [] := by
  have hverdict : tag.verdict retentionDate config.PreserveTagPatterns =
      some (evaluate t tag.Name retentionDate config.PreserveTagPatterns) := by
    unfold Tag.verdict
    rw [ht]
    rfl
  unfold deleteVerdicts
  by_cases hv : evaluate t tag.Name retentionDate config.PreserveTagPatterns = Verdict.Delete
  · simp [List.filter, hverdict, hv]
  · simp [List.filter, hverdict, hv]

theorem TagWork.refl (config : Config) (retentionDate : Time) (st st1 : RunState)
    (h1 : st1.deletedTags = st.deletedTags) (h2 : st1.preservedTags = st.preservedTags)
    (h3 : st1.skippedTags = st.skippedTags) (h4 : st1.errorTags = st.errorTags)
    (h5 : deleteCalls st1.trace = deleteCalls st.trace) :
    TagWork config retentionDate st st1 [] := by
  refine ⟨?_, ?_, ?_, ?_⟩
  · simp only [RunState.tagCount, List.length_nil]; omega
  · simp only [deleteVerdicts, List.filter_nil, List.length_nil]; omega
  · intro _; simp [deleteVerdicts, h5]
  · intro _; exact ⟨h5, h4⟩

theorem TagWork.trans (config : Config) (retentionDate : Time) (a b c : RunState)
    (xs ys : List Tag) (h1 : TagWork config retentionDate a b xs)
    (h2 : TagWork config retentionDate b c ys) :
    TagWork config retentionDate a c (xs ++ ys) := by
  obtain ⟨a1, a2, a3, a4⟩ := h1
  obtain ⟨b1, b2, b3, b4⟩ := h2
  refine ⟨?_, ?_, ?_, ?_⟩
  · rw [b1, a1, List.length_append]; omega
  · rw [b2, a2, deleteVerdicts_append, List.length_append]; omega
  · intro hdry
    rw [b3 hdry, a3 hdry, deleteVerdicts_append, List.map_append, List.append_assoc]
  · intro hdry
    exact ⟨by rw [(b4 hdry).1, (a4 hdry).1], by rw [(b4 hdry).2, (a4 hdry).2]⟩

/-- What one iteration of the tag loop does on a tag with a last-update time:
it counts the tag once and, when the verdict is Delete and dry-run is off,
makes one delete call. -/
theorem processTag_work (gw : Gateway) (config : Config) (retentionDate : Time)
    (st : RunState) (tag : Tag) (t : Time) (ht : tag.UpdatedAt = some t) :
    ∃ st1, processTag gw config retentionDate st tag = .ok st1 ∧
      st1.errorImages = st.errorImages ∧ TagWork config retentionDate st st1 [tag] := by
  rw [processTag_eq_match gw config retentionDate st tag t ht]
  refine ⟨_, rfl, ?_⟩
  unfold TagWork
  rw [deleteVerdicts_singleton config retentionDate tag t ht]
  cases hv : evaluate t tag.Name retentionDate config.PreserveTagPatterns with
  | Skip =>
    refine ⟨rfl, ?_, ?_, ?_, ?_⟩
    · simp only [RunState.tagCount, List.length_singleton]; omega
    · simp
    · intro _; simp
    · intro _; exact ⟨rfl, rfl⟩
  | Preserve =>
    refine ⟨rfl, ?_, ?_, ?_, ?_⟩
    · simp only [RunState.tagCount, List.length_singleton]; omega
    · simp
    · intro _; simp
    · intro _; exact ⟨rfl, rfl⟩
  | Delete =>
    unfold RegistryClient.DeleteTag
    cases hdry : config.DryRun with
    | true =>
      refine ⟨rfl, ?_, ?_, ?_, ?_⟩
      · simp only [RunState.tagCount, if_true, List.length_singleton]; omega
      · simp; omega
      · intro hc; cases hc
      · intro _; exact ⟨rfl, rfl⟩
    | false =>
      cases hdel : gw.DeleteTag st.trace { Region := config.Region, TagID := tag.ID } with
      | error e =>
        refine ⟨?_, ?_, ?_, ?_, ?_⟩
        · simp [hdel]
        · simp [RunState.tagCount, hdel]; omega
        · simp [hdel]; omega
        · intro _; simp [hdel, deleteCalls_append, deleteCalls, deleteRequestOf]
        · intro hc; cases hc
      | ok u =>
        refine ⟨?_, ?_, ?_, ?_, ?_⟩
        · simp [hdel]
        · simp [RunState.tagCount, hdel]; omega
        · simp [hdel]; omega
        · intro _; simp [hdel, deleteCalls_append, deleteCalls, deleteRequestOf]
        · intro hc; cases hc

/-- The tag loop over a listing: it does the work of the tags before the first
one without a last-update time, where it panics; it reaches its end exactly
when every tag has one. -/
theorem tagLoop_work (gw : Gateway) (config : Config) (retentionDate : Time)
    (tags : List Tag) : ∀ st : RunState,
    TagWork config retentionDate st (tagLoop gw config retentionDate st tags).state
      (evaluatedPrefix tags) ∧
    (tagLoop gw config retentionDate st tags).state.errorImages = st.errorImages ∧
    ((∀ tag ∈ tags, tag.UpdatedAt.isSome = true) →
      ∃ st1, tagLoop gw config retentionDate st tags = LoopResult.done st1) ∧
    (∀ st1, tagLoop gw config retentionDate st tags = LoopResult.done st1 →
      evaluatedPrefix tags = tags) ∧
    (∀ err st1, tagLoop gw config retentionDate st tags = LoopResult.panicked err st1 →
      err = nilDereference ∧ ∃ tag ∈ tags, tag.UpdatedAt = none) ∧
    (∀ st1, tagLoop gw config retentionDate st tags ≠ LoopResult.outOfFuel st1) := by
  induction tags with
  | nil =>
    intro st
    refine ⟨TagWork.refl _ _ _ _ rfl rfl rfl rfl rfl, rfl, fun _ => ⟨st, rfl⟩, fun _ _ => rfl,
      ?_, ?_⟩
    · intro err st1 h; simp [tagLoop] at h
    · intro st1 h; simp [tagLoop] at h
  | cons tag tags ih =>
    intro st
    cases ht : tag.UpdatedAt with
    | none =>
      have hp := processTag_none gw config retentionDate st tag ht
      have hloop : tagLoop gw config retentionDate st (tag :: tags) =
          LoopResult.panicked nilDereference st := by
        rw [tagLoop, hp]
      have hpre : evaluatedPrefix (tag :: tags) = [] := by
        simp [evaluatedPrefix, ht]
      rw [hloop, hpre]
      refine ⟨TagWork.refl _ _ _ _ rfl rfl rfl rfl rfl, rfl, ?_, ?_, ?_, ?_⟩
      · intro hall
        have := hall tag (List.mem_cons_self _ _)
        rw [ht] at this
        simp at this
      · intro st1 h; simp at h
      · intro err st1 h
        simp only [LoopResult.panicked.injEq] at h
        exact ⟨h.1.symm, tag, List.mem_cons_self _ _, ht⟩
      · intro st1 h; simp at h
    | some t =>
      obtain ⟨st1, hp, herr, hw⟩ := processTag_work gw config retentionDate st tag t ht
      have hloop : tagLoop gw config retentionDate st (tag :: tags) =
          tagLoop gw config retentionDate st1 tags := by
        rw [tagLoop, hp]
      have hpre : evaluatedPrefix (tag :: tags) = [tag] ++ evaluatedPrefix tags := by
        simp [evaluatedPrefix, ht]
      obtain ⟨i1, i2, i3, i4, i5, i6⟩ := ih st1
      rw [hloop, hpre]
      refine ⟨TagWork.trans _ _ _ _ _ _ _ hw i1, by rw [i2, herr], ?_, ?_, ?_, i6⟩
      · intro hall
        exact i3 (fun x hx => hall x (List.mem_cons_of_mem _ hx))
      · intro st2 h
        rw [i4 st2 h]
        rfl
      · intro err st2 h
        obtain ⟨e1, x, hx, hxn⟩ := i5 err st2 h
        exact ⟨e1, x, List.mem_cons_of_mem _ hx, hxn⟩

/-! ## The image loop -/

theorem pagedLoop_trace {α : Type} (fetch : Trace → Int → Except String (List α))
    (mkCall : Int → Call) (wrapErr : String → String) :
    ∀ (fuel : Nat) (page : Int) (acc : List α) (h : Trace),
      ∃ pages : List Int,
        (pagedLoop fetch mkCall wrapErr fuel page acc h).trace = h ++ pages.map mkCall := by
  intro fuel
  induction fuel with
  | zero => intro page acc h; exact ⟨[], by simp [pagedLoop, Walk.trace]⟩
  | succ n ih =>
    intro page acc h
    rw [pagedLoop]
    cases hf : fetch h page with
    | error e => exact ⟨[page], rfl⟩
    | ok items =>
      simp only []
      by_cases hshort : items.length < 100
      · rw [if_pos hshort]
        exact ⟨[page], rfl⟩
      · rw [if_neg hshort]
        obtain ⟨pages, hp⟩ := ih (wrapInt32 (page + 1)) (acc ++ items) (h ++ [mkCall page])
        exact ⟨page :: pages, by rw [hp, List.append_assoc]; rfl⟩

theorem deleteCalls_map_listTags (f : Int → ListTagsRequest) (pages : List Int) :
    deleteCalls (pages.map (fun p => Call.listTags (f p))) = [] := by
  induction pages with
  | nil => rfl
  | cons p ps ih => simpa [deleteCalls] using ih

theorem deleteCalls_map_listImages (f : Int → ListImagesRequest) (pages : List Int) :
    deleteCalls (pages.map (fun p => Call.listImages (f p))) = [] := by
  induction pages with
  | nil => rfl
  | cons p ps ih => simpa [deleteCalls] using ih

theorem tagCalls_append (a b : Trace) : tagCalls (a ++ b) = tagCalls a ++ tagCalls b := by
  induction a with
  | nil => rfl
  | cons c a ih =>
    cases c <;> simp [tagCalls, ih]

theorem tagCalls_map_listImages (f : Int → ListImagesRequest) (pages : List Int) :
    tagCalls (pages.map (fun p => Call.listImages (f p))) = [] := by
  induction pages with
  | nil => rfl
  | cons p ps ih => simpa [tagCalls] using ih

/-- A tag listing makes no delete call. -/
theorem ListTags_deleteCalls (gw : Gateway) (config : Config) (image : Image) (fuel : Nat)
    (h : Trace) :
    deleteCalls (RegistryClient.ListTags gw config image fuel h).trace = deleteCalls h := by
  unfold RegistryClient.ListTags
  rw [ListTags_loop_eq]
  obtain ⟨pages, hp⟩ := pagedLoop_trace
    (fun h p => gw.ListTags h (tagsRequest config image p))
    (fun p => Call.listTags (tagsRequest config image p))
    (fun err => "failed to list tags for image " ++ image.Name ++ ": " ++ err) fuel 1 [] h
  rw [hp, deleteCalls_append, deleteCalls_map_listTags, List.append_nil]

/-- An image listing makes image-listing calls only. -/
theorem ListImages_calls (gw : Gateway) (config : Config) (ns : Namespace) (fuel : Nat)
    (h : Trace) :
    deleteCalls (RegistryClient.ListImages gw config ns fuel h).trace = deleteCalls h ∧
    tagCalls (RegistryClient.ListImages gw config ns fuel h).trace = tagCalls h := by
  unfold RegistryClient.ListImages
  rw [ListImages_loop_eq]
  obtain ⟨pages, hp⟩ := pagedLoop_trace
    (fun h p => gw.ListImages h (imagesRequest config ns p))
    (fun p => Call.listImages (imagesRequest config ns p))
    (fun err => "failed to list images: " ++ err) fuel 1 [] h
  rw [hp, deleteCalls_append, deleteCalls_map_listImages, tagCalls_append,
    tagCalls_map_listImages, List.append_nil, List.append_nil]
  exact ⟨rfl, rfl⟩

/-- The namespace lookup makes one call, the lookup itself. -/
theorem getNamespace_calls (gw : Gateway) (config : Config) (h : Trace) :
    (RegistryClient.getNamespace gw config h).2 =
      h ++ [Call.listNamespaces (namespacesRequest config)] := by
  simp only [RegistryClient.getNamespace, namespacesRequest]
  split <;> rfl

/-- What one iteration of the image loop does: the work of the tags it
evaluates, those of the listing before the first tag without a last-update
time. -/
theorem processImage_work (gw : Gateway) (config : Config) (retentionDate : Time) (fuel : Nat)
    (st : RunState) (image : Image) :
    TagWork config retentionDate st (processImage gw config retentionDate fuel st image).state
      (evaluatedPrefix (RegistryClient.ListTags gw config image fuel st.trace).tags) := by
  have hdc := ListTags_deleteCalls gw config image fuel st.trace
  unfold processImage
  cases hl : RegistryClient.ListTags gw config image fuel st.trace with
  | running h =>
    rw [hl] at hdc
    exact TagWork.refl _ _ _ _ rfl rfl rfl rfl hdc
  | returned r h =>
    rw [hl] at hdc
    cases r with
    | error e => exact TagWork.refl _ _ _ _ rfl rfl rfl rfl hdc
    | ok tags =>
      have h0 : TagWork config retentionDate st { st with trace := h } [] :=
        TagWork.refl _ _ _ _ rfl rfl rfl rfl hdc
      have h1 := (tagLoop_work gw config retentionDate tags { st with trace := h }).1
      exact TagWork.trans _ _ _ _ _ _ _ h0 h1

/-- The image loop does the work of the tags it has evaluated; when it reaches
its end these are all the tags listed. -/
theorem imageLoop_work (gw : Gateway) (config : Config) (retentionDate : Time) (fuel : Nat)
    (images : List Image) : ∀ st : RunState,
    TagWork config retentionDate st (imageLoop gw config retentionDate fuel st images).state
      (evaluatedOf gw config retentionDate fuel st images) ∧
    (∀ st1, imageLoop gw config retentionDate fuel st images = LoopResult.done st1 →
      evaluatedOf gw config retentionDate fuel st images =
        listedTags gw config retentionDate fuel st images) := by
  induction images with
  | nil =>
    intro st
    exact ⟨TagWork.refl _ _ _ _ rfl rfl rfl rfl rfl, fun _ _ => rfl⟩
  | cons image images ih =>
    intro st
    have hw := processImage_work gw config retentionDate fuel st image
    have hev : evaluatedOf gw config retentionDate fuel st (image :: images) =
        evaluatedPrefix (RegistryClient.ListTags gw config image fuel st.trace).tags ++
          (match processImage gw config retentionDate fuel st image with
            | LoopResult.done st1 => evaluatedOf gw config retentionDate fuel st1 images
            | _ => []) := by
      unfold evaluatedOf
      rw [tagWalks, List.flatMap_cons]
      cases processImage gw config retentionDate fuel st image <;> simp
    have hli : listedTags gw config retentionDate fuel st (image :: images) =
        (RegistryClient.ListTags gw config image fuel st.trace).tags ++
          (match processImage gw config retentionDate fuel st image with
            | LoopResult.done st1 => listedTags gw config retentionDate fuel st1 images
            | _ => []) := by
      unfold listedTags
      rw [tagWalks, List.flatMap_cons]
      cases processImage gw config retentionDate fuel st image <;> simp
    rw [hev, hli, imageLoop]
    cases hp : processImage gw config retentionDate fuel st image with
    | done st1 =>
      rw [hp] at hw
      obtain ⟨i1, i2⟩ := ih st1
      refine ⟨TagWork.trans _ _ _ _ _ _ _ hw i1, ?_⟩
      intro st2 hdone
      simp only [] at hdone ⊢
      rw [i2 st2 hdone]
      congr 1
      unfold processImage at hp
      cases hl : RegistryClient.ListTags gw config image fuel st.trace with
      | running h => rfl
      | returned r h =>
        cases r with
        | error e => rfl
        | ok tags =>
          rw [hl] at hp
          exact (tagLoop_work gw config retentionDate tags _).2.2.2.1 st1 hp
    | panicked err st1 =>
      rw [hp] at hw
      simp only [List.append_nil]
      exact ⟨hw, fun st2 h => by simp at h⟩
    | outOfFuel st1 =>
      rw [hp] at hw
      simp only [List.append_nil]
      exact ⟨hw, fun st2 h => by simp at h⟩

/-! ## Runs of `Handle` -/

/-- The four ways a run of `Handle` goes: the namespace lookup fails; the image
listing is still running; the image listing fails; or the image loop runs over
the images listed. Before the image loop no tag call is made. -/
theorem Handle_cases (gw : Gateway) (config : Config) (clock : Clock) (fuel : Nat) :
    (∃ err h, RegistryClient.getNamespace gw config [] = (.error err, h) ∧
      Handle gw config clock fuel = Outcome.panic err h ∧
      runWalks gw config clock fuel = [] ∧ deleteCalls h = [] ∧ tagCalls h = []) ∨
    (∃ ns h0 h1, RegistryClient.getNamespace gw config [] = (.ok ns, h0) ∧
      RegistryClient.ListImages gw config ns fuel h0 = Walk.running h1 ∧
      Handle gw config clock fuel = Outcome.running h1 ∧
      runWalks gw config clock fuel = [] ∧ deleteCalls h1 = [] ∧ tagCalls h1 = []) ∨
    (∃ ns h0 err h1, RegistryClient.getNamespace gw config [] = (.ok ns, h0) ∧
      RegistryClient.ListImages gw config ns fuel h0 = Walk.returned (.error err) h1 ∧
      Handle gw config clock fuel = Outcome.panic err h1 ∧
      runWalks gw config clock fuel = [] ∧ deleteCalls h1 = [] ∧ tagCalls h1 = []) ∨
    (∃ ns h0 images h1, RegistryClient.getNamespace gw config [] = (.ok ns, h0) ∧
      RegistryClient.ListImages gw config ns fuel h0 = Walk.returned (.ok images) h1 ∧
      Handle gw config clock fuel =
        (match imageLoop gw config (retentionDateOf config clock) fuel (RunState.start h1)
            images with
          | LoopResult.done st => Outcome.summary st
          | LoopResult.panicked err st => Outcome.panic err st.trace
          | LoopResult.outOfFuel st => Outcome.running st.trace) ∧
      runWalks gw config clock fuel =
        tagWalks gw config (retentionDateOf config clock) fuel (RunState.start h1) images ∧
      deleteCalls h1 = [] ∧ tagCalls h1 = []) := by
  have hcalls := getNamespace_calls gw config []
  rcases hns : RegistryClient.getNamespace gw config [] with ⟨r, h0⟩
  rw [hns] at hcalls
  simp only [] at hcalls
  have hd0 : deleteCalls h0 = [] := by rw [hcalls]; rfl
  have ht0 : tagCalls h0 = [] := by rw [hcalls]; rfl
  cases r with
  | error e =>
    refine Or.inl ⟨e, h0, rfl, ?_, ?_, hd0, ht0⟩
    · unfold Handle; simp only []; rw [hns]
    · unfold runWalks; rw [hns]
  | ok ns =>
    have hic := ListImages_calls gw config ns fuel h0
    cases hli : RegistryClient.ListImages gw config ns fuel h0 with
    | running h1 =>
      rw [hli] at hic
      refine Or.inr (Or.inl ⟨ns, h0, h1, rfl, hli, ?_, ?_, ?_, ?_⟩)
      · unfold Handle; simp only []; rw [hns]; simp only []; rw [hli]
      · unfold runWalks; rw [hns]; simp only []; rw [hli]
      · exact hic.1.trans hd0
      · exact hic.2.trans ht0
    | returned r2 h1 =>
      rw [hli] at hic
      have hd1 : deleteCalls h1 = [] := hic.1.trans hd0
      have ht1 : tagCalls h1 = [] := hic.2.trans ht0
      cases r2 with
      | error e =>
        refine Or.inr (Or.inr (Or.inl ⟨ns, h0, e, h1, rfl, hli, ?_, ?_, hd1, ht1⟩))
        · unfold Handle; simp only []; rw [hns]; simp only []; rw [hli]
        · unfold runWalks; rw [hns]; simp only []; rw [hli]
      | ok images =>
        refine Or.inr (Or.inr (Or.inr ⟨ns, h0, images, h1, rfl, hli, ?_, ?_, hd1, ht1⟩))
        · unfold Handle; simp only []; rw [hns]; simp only []; rw [hli]
        · unfold runWalks; rw [hns]; simp only []; rw [hli]

/-- The outcome of the image loop as the outcome of the run. -/
theorem outcome_trace_of_loop (r : LoopResult) :
    (match r with
      | LoopResult.done st => Outcome.summary st
      | LoopResult.panicked err st => Outcome.panic err st.trace
      | LoopResult.outOfFuel st => Outcome.running st.trace).trace = r.state.trace := by
  cases r <;> rfl

/-- The work on tags of a run of `Handle`, whether it has ended or not, from
its start: the delete calls made are, with dry-run off, those of the evaluated
tags with verdict Delete, in order, and none with dry-run on. -/
theorem Handle_work (gw : Gateway) (config : Config) (clock : Clock) (fuel : Nat) :
    (config.DryRun = false →
      deleteCalls (Handle gw config clock fuel).trace =
        (deleteVerdicts config (retentionDateOf config clock)
          (evaluatedTags gw config clock fuel)).map (deleteRequestOf config)) ∧
    (config.DryRun = true → deleteCalls (Handle gw config clock fuel).trace = []) := by
  have hnil : deleteVerdicts config (retentionDateOf config clock) [] = [] := rfl
  rcases Handle_cases gw config clock fuel with
    ⟨err, h, _, hH, hw, hd, _⟩ | ⟨ns, h0, h1, _, _, hH, hw, hd, _⟩ |
    ⟨ns, h0, err, h1, _, _, hH, hw, hd, _⟩ | ⟨ns, h0, images, h1, _, _, hH, hw, hd, _⟩
  · unfold evaluatedTags
    rw [hH, hw]
    exact ⟨fun _ => hd, fun _ => hd⟩
  · unfold evaluatedTags
    rw [hH, hw]
    exact ⟨fun _ => hd, fun _ => hd⟩
  · unfold evaluatedTags
    rw [hH, hw]
    exact ⟨fun _ => hd, fun _ => hd⟩
  · have hev : evaluatedTags gw config clock fuel =
        evaluatedOf gw config (retentionDateOf config clock) fuel (RunState.start h1) images := by
      unfold evaluatedTags evaluatedOf
      rw [hw]
    obtain ⟨_, _, w3, w4⟩ :=
      (imageLoop_work gw config (retentionDateOf config clock) fuel images (RunState.start h1)).1
    rw [hH, outcome_trace_of_loop, hev]
    constructor
    · intro hdry
      rw [w3 hdry]
      show deleteCalls h1 ++ _ = _
      rw [hd, List.nil_append]
    · intro hdry
      rw [(w4 hdry).1]
      exact hd

/-- A run that reaches the summary went through the image loop to its end. -/
theorem Handle_summary_inv (gw : Gateway) (config : Config) (clock : Clock) (fuel : Nat)
    (st : RunState) (hrun : Handle gw config clock fuel = Outcome.summary st) :
    ∃ images h1,
      imageLoop gw config (retentionDateOf config clock) fuel (RunState.start h1) images =
        LoopResult.done st ∧
      runWalks gw config clock fuel =
        tagWalks gw config (retentionDateOf config clock) fuel (RunState.start h1) images := by
  rcases Handle_cases gw config clock fuel with
    ⟨err, h, _, hH, _⟩ | ⟨ns, h0, h1, _, _, hH, _⟩ |
    ⟨ns, h0, err, h1, _, _, hH, _⟩ | ⟨ns, h0, images, h1, _, _, hH, hw, _⟩
  · rw [hH] at hrun; simp at hrun
  · rw [hH] at hrun; simp at hrun
  · rw [hH] at hrun; simp at hrun
  · refine ⟨images, h1, ?_, hw⟩
    rw [hH] at hrun
    cases hil : imageLoop gw config (retentionDateOf config clock) fuel (RunState.start h1)
        images with
    | done st1 =>
      rw [hil] at hrun
      simp only [Outcome.summary.injEq] at hrun
      rw [hrun]
    | panicked err st1 => rw [hil] at hrun; simp at hrun
    | outOfFuel st1 => rw [hil] at hrun; simp at hrun

/-! ## C2, C4, C6: delete calls and counters of a run -/

theorem evaluatedPrefix_of_all (tags : List Tag)
    (hall : ∀ tag ∈ tags, tag.UpdatedAt.isSome = true) : evaluatedPrefix tags = tags := by
  unfold evaluatedPrefix
  rw [List.takeWhile_eq_self_iff]
  exact hall

theorem flatMap_evaluatedPrefix (walks : List (Walk Tag))
    (hall : ∀ tag ∈ walks.flatMap Walk.tags, tag.UpdatedAt.isSome = true) :
    walks.flatMap (fun w => evaluatedPrefix w.tags) = walks.flatMap Walk.tags := by
  induction walks with
  | nil => rfl
  | cons w ws ih =>
    rw [List.flatMap_cons, List.flatMap_cons] at *
    rw [evaluatedPrefix_of_all w.tags (fun t ht => hall t (List.mem_append_left _ ht)),
      ih (fun t ht => hall t (List.mem_append_right _ ht))]

/-- In a run that reaches the summary every listed tag has been evaluated. -/
theorem evaluated_eq_enumerated (gw : Gateway) (config : Config) (clock : Clock) (fuel : Nat)
    (st : RunState) (hrun : Handle gw config clock fuel = Outcome.summary st) :
    evaluatedTags gw config clock fuel = enumeratedTags gw config clock fuel ∧
    TagWork config (retentionDateOf config clock) (RunState.start []) st
      (enumeratedTags gw config clock fuel) := by
  obtain ⟨images, h1, hloop, hw⟩ := Handle_summary_inv gw config clock fuel st hrun
  obtain ⟨w1, w2⟩ :=
    imageLoop_work gw config (retentionDateOf config clock) fuel images (RunState.start h1)
  have heq := w2 st hloop
  have h3 : evaluatedTags gw config clock fuel = enumeratedTags gw config clock fuel := by
    unfold evaluatedTags enumeratedTags
    rw [hw]
    exact heq
  refine ⟨h3, ?_⟩
  have h4 : enumeratedTags gw config clock fuel =
      evaluatedOf gw config (retentionDateOf config clock) fuel (RunState.start h1) images := by
    rw [← h3]
    unfold evaluatedTags evaluatedOf
    rw [hw]
  rw [hloop] at w1
  rw [h4]
  obtain ⟨a1, a2, a3, a4⟩ := w1
  have hd := (Handle_work gw config clock fuel)
  exact ⟨a1, a2, fun hdry => by
      have := hd.1 hdry
      rw [hrun] at this
      have e : evaluatedTags gw config clock fuel =
          evaluatedOf gw config (retentionDateOf config clock) fuel (RunState.start h1) images := by
        unfold evaluatedTags evaluatedOf; rw [hw]
      rw [e] at this
      show deleteCalls st.trace = [] ++ _
      rw [List.nil_append]
      exact this,
    fun hdry => by
      have := hd.2 hdry
      rw [hrun] at this
      exact ⟨this, (a4 hdry).2⟩⟩

/-- C2 (amended): with dry-run off, whatever the gateway answers and at every
fuel, whether the run has ended or not, the delete calls made are exactly the
delete requests of the evaluated tags with verdict Delete, in image order then
listing order, one per tag: a failed deletion stops nothing, and a tag with
verdict Skip or Preserve gets no call. The evaluated tags are all the tags of
the successful tag listings when each of them has a last-update time, and in
every run that reaches the summary. -/
theorem Handle_delete_calls (gw : Gateway) (config : Config) (clock : Clock) (fuel : Nat)
    (hdry : config.DryRun = false) :
    deleteCalls (Handle gw config clock fuel).trace =
      (deleteVerdicts config (retentionDateOf config clock)
        (evaluatedTags gw config clock fuel)).map (deleteRequestOf config) ∧
    ((∀ tag ∈ enumeratedTags gw config clock fuel, tag.UpdatedAt.isSome = true) →
      evaluatedTags gw config clock fuel = enumeratedTags gw config clock fuel) ∧
    (∀ st, Handle gw config clock fuel = Outcome.summary st →
      evaluatedTags gw config clock fuel = enumeratedTags gw config clock fuel) :=
  ⟨(Handle_work gw config clock fuel).1 hdry,
    fun hall => flatMap_evaluatedPrefix (runWalks gw config clock fuel) hall,
    fun st hrun => (evaluated_eq_enumerated gw config clock fuel st hrun).1⟩

set_option maxRecDepth 100000 in
/-- A run over three images: the tags of `a` and `c` are evaluated, the
listing of `b` fails, the deletion of `t4` fails; the delete calls are those of
`t1`, `t4` and `t5`. -/
theorem Handle_delete_calls_witness :
    keepConfig.DryRun = false ∧
    deleteCalls (Handle sampleGateway keepConfig sampleClock 2).trace =
      [{ Region := "fr-par", TagID := "t1" }, { Region := "fr-par", TagID := "t4" },
       { Region := "fr-par", TagID := "t5" }] ∧
    evaluatedTags sampleGateway keepConfig sampleClock 2 = tagsA ++ tagsC :=
  ⟨rfl, (Handle_delete_calls sampleGateway keepConfig sampleClock 2 rfl).1.trans (by decide),
    by decide⟩

set_option maxRecDepth 100000 in
/-- C2 as stated fails on a tag without a last-update time: the listing of the
image succeeds and returns such a tag followed by `build-9`, which has the
verdict Delete; `Handle` panics on the first tag and makes no delete call. -/
theorem Handle_delete_calls_counterexample :
    keepConfig.DryRun = false ∧
    Handle nilTagGateway keepConfig sampleClock 2 =
      Outcome.panic nilDereference
        [Call.listNamespaces (namespacesRequest keepConfig),
         Call.listImages (imagesRequest keepConfig sampleNamespace 1),
         Call.listTags (tagsRequest keepConfig imageA 1)] ∧
    deleteCalls (Handle nilTagGateway keepConfig sampleClock 2).trace = [] ∧
    (deleteVerdicts keepConfig (retentionDateOf keepConfig sampleClock)
      (enumeratedTags nilTagGateway keepConfig sampleClock 2)).map (deleteRequestOf keepConfig) =
      [{ Region := "fr-par", TagID := "id-build-9" }] := by
  refine ⟨rfl, rfl, rfl, by decide⟩

/-- C4: in a run that reaches the summary the four tag counters add up to the
number of enumerated tags, and each iteration of the tag loop adds one to
exactly one of them and leaves the other three as they are. -/
theorem Handle_counter_partition (gw : Gateway) (config : Config) (clock : Clock) (fuel : Nat)
    (st : RunState) (hrun : Handle gw config clock fuel = Outcome.summary st) :
    st.deletedTags + st.preservedTags + st.skippedTags + st.errorTags =
      (enumeratedTags gw config clock fuel).length ∧
    ∀ (s s1 : RunState) (tag : Tag),
      processTag gw config (retentionDateOf config clock) s tag = .ok s1 →
      (s1.deletedTags = s.deletedTags + 1 ∧ s1.preservedTags = s.preservedTags ∧
        s1.skippedTags = s.skippedTags ∧ s1.errorTags = s.errorTags) ∨
      (s1.deletedTags = s.deletedTags ∧ s1.preservedTags = s.preservedTags + 1 ∧
        s1.skippedTags = s.skippedTags ∧ s1.errorTags = s.errorTags) ∨
      (s1.deletedTags = s.deletedTags ∧ s1.preservedTags = s.preservedTags ∧
        s1.skippedTags = s.skippedTags + 1 ∧ s1.errorTags = s.errorTags) ∨
      (s1.deletedTags = s.deletedTags ∧ s1.preservedTags = s.preservedTags ∧
        s1.skippedTags = s.skippedTags ∧ s1.errorTags = s.errorTags + 1) := by
  constructor
  · have h2 := (evaluated_eq_enumerated gw config clock fuel st hrun).2.1
    have hz : (RunState.start []).tagCount = 0 := rfl
    rw [hz] at h2
    simp only [RunState.tagCount] at h2
    omega
  · intro s s1 tag hp
    cases ht : tag.UpdatedAt with
    | none =>
      rw [processTag_none gw config (retentionDateOf config clock) s tag ht] at hp
      simp at hp
    | some t =>
      rw [processTag_eq_match gw config (retentionDateOf config clock) s tag t ht] at hp
      simp only [Except.ok.injEq] at hp
      subst hp
      cases evaluate t tag.Name (retentionDateOf config clock) config.PreserveTagPatterns with
      | Skip => exact Or.inr (Or.inr (Or.inl ⟨rfl, rfl, rfl, rfl⟩))
      | Preserve => exact Or.inr (Or.inl ⟨rfl, rfl, rfl, rfl⟩)
      | Delete =>
        rcases RegistryClient.DeleteTag gw config s.trace tag with ⟨_ | e, h⟩
        · exact Or.inl ⟨rfl, rfl, rfl, rfl⟩
        · exact Or.inr (Or.inr (Or.inr ⟨rfl, rfl, rfl, rfl⟩))

set_option maxRecDepth 100000 in
/-- The run over three images reaches the summary with 2 tags deleted, 1
preserved, 1 skipped and 1 in error: the 5 enumerated tags. -/
theorem Handle_counter_partition_witness :
    ∃ st, Handle sampleGateway keepConfig sampleClock 2 = Outcome.summary st ∧
      (st.deletedTags, st.preservedTags, st.skippedTags, st.errorTags, st.errorImages) =
        (2, 1, 1, 1, 1) ∧
      st.deletedTags + st.preservedTags + st.skippedTags + st.errorTags = 5 :=
  ⟨_, rfl, by decide,
    (Handle_counter_partition sampleGateway keepConfig sampleClock 2 _ rfl).1.trans (by decide)⟩

/-- C6: in dry-run mode `DeleteTag` returns no error and makes no call, for
every tag; at every fuel, whether the run has ended or not, no delete call has
been made; and at the summary the error-tag counter is 0 and the deleted-tag
counter is the number of enumerated tags with verdict Delete. -/
theorem dry_run_gate (gw : Gateway) (config : Config) (clock : Clock) (fuel : Nat)
    (hdry : config.DryRun = true) :
    (∀ (h : Trace) (tag : Tag), RegistryClient.DeleteTag gw config h tag = (none, h)) ∧
    deleteCalls (Handle gw config clock fuel).trace = [] ∧
    ∀ st, Handle gw config clock fuel = Outcome.summary st →
      st.errorTags = 0 ∧
      st.deletedTags = (deleteVerdicts config (retentionDateOf config clock)
        (enumeratedTags gw config clock fuel)).length := by
  refine ⟨?_, (Handle_work gw config clock fuel).2 hdry, ?_⟩
  · intro h tag
    unfold RegistryClient.DeleteTag
    rw [if_pos hdry]
  · intro st hrun
    obtain ⟨_, a2, _, a4⟩ := (evaluated_eq_enumerated gw config clock fuel st hrun).2
    have herr : st.errorTags = 0 := (a4 hdry).2
    refine ⟨herr, ?_⟩
    have hz1 : (RunState.start []).deletedTags = 0 := rfl
    have hz2 : (RunState.start []).errorTags = 0 := rfl
    rw [hz1, hz2] at a2
    omega

set_option maxRecDepth 100000 in
/-- The run over three images in dry-run mode: no delete call, no tag error,
and the 3 tags with verdict Delete counted as deleted. -/
theorem dry_run_gate_witness :
    dryConfig.DryRun = true ∧
    ∃ st, Handle sampleGateway dryConfig sampleClock 2 = Outcome.summary st ∧
      deleteCalls (Handle sampleGateway dryConfig sampleClock 2).trace = [] ∧
      st.errorTags = 0 ∧ st.deletedTags = 3 :=
  ⟨rfl, _, rfl,
    (dry_run_gate sampleGateway dryConfig sampleClock 2 rfl).2.1,
    ((dry_run_gate sampleGateway dryConfig sampleClock 2 rfl).2.2 _ rfl).1,
    (((dry_run_gate sampleGateway dryConfig sampleClock 2 rfl).2.2 _ rfl).2).trans
      (by decide)⟩

/-! ## C9: the configuration fails safe -/

/-- The retention period and the dry-run flag that the optional part of `init`
computes from the two parse results. -/
theorem initOptional_spec (Getenv : String → String) (c0 c : Config)
    (hinit : initOptional Getenv c0 = .ok c) :
    c.RetentionDays =
      (match Atoi (Getenv "RETENTION_DAYS") with
        | .ok n => if n < 1 then 30 else n
        | .error _ => 30) ∧
    c.DryRun =
      (match Atoi (Getenv "RETENTION_DAYS") with
        | .ok n =>
          if n < 1 then true
          else
            match ParseBool (Getenv "DRY_RUN") with
            | .ok b => b
            | .error _ => true
        | .error _ => true) := by
  unfold initOptional at hinit
  generalize Compile (Getenv "PRESERVE_TAG_PATTERNS") = r1 at hinit
  generalize Compile DefaultTagPattern = r2 at hinit
  generalize ParseBool (Getenv "DRY_RUN") = pb at hinit ⊢
  generalize Atoi (Getenv "RETENTION_DAYS") = pa at hinit ⊢
  cases pb with
  | error e =>
    cases pa with
    | error e2 =>
      cases r1 with
      | some re => cases hinit; exact ⟨rfl, rfl⟩
      | none =>
        cases r2 with
        | some re => cases hinit; exact ⟨rfl, rfl⟩
        | none => cases hinit
    | ok n =>
      by_cases hn : n < 1
      · simp only [hn, if_true] at hinit ⊢
        cases r1 with
        | some re => cases hinit; exact ⟨rfl, rfl⟩
        | none =>
          cases r2 with
          | some re => cases hinit; exact ⟨rfl, rfl⟩
          | none => cases hinit
      · simp only [hn, if_false] at hinit ⊢
        cases r1 with
        | some re => cases hinit; exact ⟨rfl, rfl⟩
        | none =>
          cases r2 with
          | some re => cases hinit; exact ⟨rfl, rfl⟩
          | none => cases hinit
  | ok b =>
    cases pa with
    | error e2 =>
      cases r1 with
      | some re => cases hinit; exact ⟨rfl, rfl⟩
      | none =>
        cases r2 with
        | some re => cases hinit; exact ⟨rfl, rfl⟩
        | none => cases hinit
    | ok n =>
      by_cases hn : n < 1
      · simp only [hn, if_true] at hinit ⊢
        cases r1 with
        | some re => cases hinit; exact ⟨rfl, rfl⟩
        | none =>
          cases r2 with
          | some re => cases hinit; exact ⟨rfl, rfl⟩
          | none => cases hinit
      · simp only [hn, if_false] at hinit ⊢
        cases r1 with
        | some re => cases hinit; exact ⟨rfl, rfl⟩
        | none =>
          cases r2 with
          | some re => cases hinit; exact ⟨rfl, rfl⟩
          | none => cases hinit

/-- A configuration that `init` returns is the one its optional part computes
from the five required variables. -/
theorem init_ok_inv (Getenv : String → String) (NewClient : Config → Option String)
    (c : Config) (hinit : init Getenv NewClient = .ok c) :
    ∃ c0, initOptional Getenv c0 = .ok c := by
  unfold init at hinit
  simp only [] at hinit
  split at hinit
  · cases hinit
  · split at hinit
    · cases hinit
    · split at hinit
      · cases hinit
      · split at hinit
        · cases hinit
        · split at hinit
          · cases hinit
          · split at hinit
            · cases hinit
            · rename_i c1 hopt
              split at hinit
              · cases hinit
              · cases hinit
                exact ⟨_, hopt⟩

/-- C9: whatever the environment holds, a configuration that `init` returns
has a retention period of at least 1 day; when RETENTION_DAYS is not parsed
by `Atoi` (the unset variable included) or is below 1, dry-run is on and the
period is 30 days whatever DRY_RUN says; when DRY_RUN is not parsed by
`ParseBool`, dry-run is on; so dry-run is off only when DRY_RUN parses to false
and RETENTION_DAYS parses to an integer of at least 1, which is then the
period. -/
theorem init_fails_safe (Getenv : String → String) (NewClient : Config → Option String)
    (c : Config) (hinit : init Getenv NewClient = .ok c) :
    c.RetentionDays ≥ 1 ∧
    ((∀ n, Atoi (Getenv "RETENTION_DAYS") = .ok n → n < 1) →
      c.DryRun = true ∧ c.RetentionDays = 30) ∧
    ((∀ b, ParseBool (Getenv "DRY_RUN") ≠ .ok b) → c.DryRun = true) ∧
    (c.DryRun = false →
      ParseBool (Getenv "DRY_RUN") = .ok false ∧
      ∃ n, Atoi (Getenv "RETENTION_DAYS") = .ok n ∧ n ≥ 1 ∧ c.RetentionDays = n) ∧
    (∃ e, Atoi "" = .error e) ∧ (∃ e, ParseBool "" = .error e) := by
  obtain ⟨c0, hopt⟩ := init_ok_inv Getenv NewClient c hinit
  obtain ⟨hr, hd⟩ := initOptional_spec Getenv c0 c hopt
  refine ⟨?_, ?_, ?_, ?_, ⟨_, rfl⟩, ⟨_, rfl⟩⟩
  · rw [hr]
    cases Atoi (Getenv "RETENTION_DAYS") with
    | error e => simp
    | ok n =>
      simp only []
      split <;> omega
  · intro hbad
    rw [hr, hd]
    cases ha : Atoi (Getenv "RETENTION_DAYS") with
    | error e => exact ⟨rfl, rfl⟩
    | ok n =>
      have := hbad n ha
      simp only [this, if_true]
      exact ⟨trivial, trivial⟩
  · intro hbad
    rw [hd]
    cases ha : Atoi (Getenv "RETENTION_DAYS") with
    | error e => rfl
    | ok n =>
      simp only []
      split
      · rfl
      · cases hb : ParseBool (Getenv "DRY_RUN") with
        | error e => rfl
        | ok b => exact absurd hb (hbad b)
  · intro hfalse
    rw [hd] at hfalse
    rw [hr]
    cases ha : Atoi (Getenv "RETENTION_DAYS") with
    | error e => rw [ha] at hfalse; simp at hfalse
    | ok n =>
      rw [ha] at hfalse
      simp only [] at hfalse
      by_cases hn : n < 1
      · simp [hn] at hfalse
      · simp only [hn, if_false] at hfalse ⊢
        cases hb : ParseBool (Getenv "DRY_RUN") with
        | error e => rw [hb] at hfalse; simp at hfalse
        | ok b =>
          rw [hb] at hfalse
          simp only [] at hfalse
          subst hfalse
          exact ⟨rfl, n, rfl, by omega, rfl⟩

set_option maxRecDepth 100000 in
/-- With DRY_RUN set to `false` and RETENTION_DAYS to `7`, `init` returns a
destructive configuration with a period of 7 days. -/
theorem init_fails_safe_witness :
    ∃ c, init sampleEnv (fun _ => none) = .ok c ∧ c.DryRun = false ∧ c.RetentionDays = 7 ∧
      c.RetentionDays ≥ 1 ∧ ParseBool (sampleEnv "DRY_RUN") = .ok false :=
  ⟨_, rfl, rfl, rfl, (init_fails_safe sampleEnv (fun _ => none) _ rfl).1,
    ((init_fails_safe sampleEnv (fun _ => none) _ rfl).2.2.2.1 rfl).1⟩

/-! ## C10: run-fatal errors -/

/-- An error returned by the pagination loop is the error of a page fetch, the
last call made. -/
theorem pagedLoop_error {α : Type} (fetch : Trace → Int → Except String (List α))
    (mkCall : Int → Call) (wrapErr : String → String) :
    ∀ (fuel : Nat) (page : Int) (acc : List α) (h : Trace) (err : String) (h1 : Trace),
      pagedLoop fetch mkCall wrapErr fuel page acc h = Walk.returned (.error err) h1 →
      ∃ h0 p e, fetch h0 p = .error e ∧ err = wrapErr e ∧ h1 = h0 ++ [mkCall p] := by
  intro fuel
  induction fuel with
  | zero => intro page acc h err h1 hrun; simp [pagedLoop] at hrun
  | succ n ih =>
    intro page acc h err h1 hrun
    rw [pagedLoop] at hrun
    cases hf : fetch h page with
    | error e =>
      rw [hf] at hrun
      simp only [Walk.returned.injEq, Except.error.injEq] at hrun
      exact ⟨h, page, e, hf, hrun.1.symm, hrun.2.symm⟩
    | ok items =>
      rw [hf] at hrun
      simp only [] at hrun
      by_cases hshort : items.length < 100
      · rw [if_pos hshort] at hrun
        simp at hrun
      · rw [if_neg hshort] at hrun
        exact ih _ _ _ _ _ hrun

/-- The image loop reaches its end exactly when every tag listing it makes has
returned and every tag listed has a last-update time; it panics only on a
listed tag without one, with the nil dereference. -/
theorem imageLoop_done_iff (gw : Gateway) (config : Config) (retentionDate : Time) (fuel : Nat)
    (images : List Image) : ∀ st : RunState,
    ((∃ st1, imageLoop gw config retentionDate fuel st images = LoopResult.done st1) ↔
      ((∀ w ∈ tagWalks gw config retentionDate fuel st images, w.result.isSome = true) ∧
        ∀ tag ∈ listedTags gw config retentionDate fuel st images,
          tag.UpdatedAt.isSome = true)) ∧
    (∀ err st1, imageLoop gw config retentionDate fuel st images = LoopResult.panicked err st1 →
      err = nilDereference ∧
      ∃ tag ∈ listedTags gw config retentionDate fuel st images, tag.UpdatedAt = none) ∧
    (∀ st1, imageLoop gw config retentionDate fuel st images = LoopResult.outOfFuel st1 →
      ∃ w ∈ tagWalks gw config retentionDate fuel st images, w.result = none) := by
  induction images with
  | nil =>
    intro st
    refine ⟨⟨fun _ => ⟨fun w hw => by simp [tagWalks] at hw,
      fun t ht => by simp [listedTags, tagWalks] at ht⟩, fun _ => ⟨st, rfl⟩⟩, ?_, ?_⟩
    · intro err st1 h; simp [imageLoop] at h
    · intro st1 h; simp [imageLoop] at h
  | cons image images ih =>
    intro st
    have hwalks : tagWalks gw config retentionDate fuel st (image :: images) =
        RegistryClient.ListTags gw config image fuel st.trace ::
          (match processImage gw config retentionDate fuel st image with
            | LoopResult.done st1 => tagWalks gw config retentionDate fuel st1 images
            | _ => []) := by
      rw [tagWalks]
    have hli : listedTags gw config retentionDate fuel st (image :: images) =
        (RegistryClient.ListTags gw config image fuel st.trace).tags ++
          (match processImage gw config retentionDate fuel st image with
            | LoopResult.done st1 => listedTags gw config retentionDate fuel st1 images
            | _ => []) := by
      unfold listedTags
      rw [tagWalks, List.flatMap_cons]
      cases processImage gw config retentionDate fuel st image <;> simp
    rw [hwalks, hli, imageLoop]
    have hpi : processImage gw config retentionDate fuel st image =
        (match RegistryClient.ListTags gw config image fuel st.trace with
          | Walk.running h => LoopResult.outOfFuel { st with trace := h }
          | Walk.returned (.error _) h =>
            LoopResult.done { st with errorImages := st.errorImages + 1, trace := h }
          | Walk.returned (.ok tags) h =>
            tagLoop gw config retentionDate { st with trace := h } tags) := rfl
    cases hl : RegistryClient.ListTags gw config image fuel st.trace with
    | running h =>
      rw [hl] at hpi
      simp only [] at hpi
      rw [hpi]
      refine ⟨⟨fun ⟨st1, h1⟩ => by simp at h1, fun ⟨hall, _⟩ => ?_⟩, ?_, ?_⟩
      · have := hall (Walk.running h) (List.mem_cons_self _ _)
        simp [Walk.result] at this
      · intro err st1 h1; simp at h1
      · intro st1 _
        exact ⟨Walk.running h, List.mem_cons_self _ _, rfl⟩
    | returned r h =>
      cases r with
      | error e =>
        rw [hl] at hpi
        simp only [] at hpi
        rw [hpi]
        simp only [Walk.tags, List.nil_append]
        obtain ⟨i1, i2, i3⟩ := ih { st with errorImages := st.errorImages + 1, trace := h }
        refine ⟨⟨fun hd => ?_, fun ⟨hall, htags⟩ => ?_⟩, ?_, ?_⟩
        · obtain ⟨a, b⟩ := i1.1 hd
          refine ⟨fun w hw => ?_, b⟩
          rcases List.mem_cons.1 hw with rfl | hw
          · rfl
          · exact a w hw
        · exact i1.2 ⟨fun w hw => hall w (List.mem_cons_of_mem _ hw), htags⟩
        · exact i2
        · intro st1 h1
          obtain ⟨w, hw, hr⟩ := i3 st1 h1
          exact ⟨w, List.mem_cons_of_mem _ hw, hr⟩
      | ok tags =>
        rw [hl] at hpi
        simp only [] at hpi
        rw [hpi]
        simp only [Walk.tags]
        obtain ⟨_, _, t3, t4, t5, t6⟩ :=
          tagLoop_work gw config retentionDate tags { st with trace := h }
        cases htl : tagLoop gw config retentionDate { st with trace := h } tags with
        | done st1 =>
          simp only []
          have hpre := t4 st1 htl
          have hall : ∀ tag ∈ tags, tag.UpdatedAt.isSome = true := by
            intro tag hmem
            rw [← hpre] at hmem
            unfold evaluatedPrefix at hmem
            exact @List.mem_takeWhile_imp _ (fun t : Tag => t.UpdatedAt.isSome) _ _ hmem
          obtain ⟨i1, i2, i3⟩ := ih st1
          refine ⟨⟨fun hd => ?_, fun ⟨hw, htags⟩ => ?_⟩, ?_, ?_⟩
          · obtain ⟨a, b⟩ := i1.1 hd
            refine ⟨fun w hw => ?_, fun t ht => ?_⟩
            · rcases List.mem_cons.1 hw with rfl | hw
              · rfl
              · exact a w hw
            · rcases List.mem_append.1 ht with ht | ht
              · exact hall t ht
              · exact b t ht
          · exact i1.2 ⟨fun w hw1 => hw w (List.mem_cons_of_mem _ hw1),
              fun t ht => htags t (List.mem_append_right _ ht)⟩
          · intro err st2 h1
            obtain ⟨e1, t, ht, hn⟩ := i2 err st2 h1
            exact ⟨e1, t, List.mem_append_right _ ht, hn⟩
          · intro st2 h1
            obtain ⟨w, hw, hr⟩ := i3 st2 h1
            exact ⟨w, List.mem_cons_of_mem _ hw, hr⟩
        | panicked err st1 =>
          simp only [List.append_nil]
          obtain ⟨e1, t, ht, hn⟩ := t5 err st1 htl
          refine ⟨⟨fun ⟨st2, h1⟩ => by simp at h1, fun ⟨_, htags⟩ => ?_⟩, ?_, ?_⟩
          · have := htags t ht
            rw [hn] at this
            simp at this
          · intro err2 st2 h1
            simp only [LoopResult.panicked.injEq] at h1
            exact ⟨h1.1 ▸ e1, t, ht, hn⟩
          · intro st2 h1; simp at h1
        | outOfFuel st1 => exact absurd htl (t6 st1)

/-- C10 (amended): a namespace lookup that fails or finds nothing, and an image
listing in which a page fetch fails, make `Handle` panic with that error, the
failed call being the last one made, so that no tag-listing or delete call is
made and there is no summary. When the lookup finds a namespace and the image
listing succeeds, no answer of a tag listing or of a deletion makes the run
panic: it panics only on a listed tag without a last-update time, and it
reaches the summary exactly when every tag listing that it makes has returned
and every listed tag has a last-update time. -/
theorem Handle_fatal_errors (gw : Gateway) (config : Config) (clock : Clock) (fuel : Nat) :
    (∀ e, gw.ListNamespaces [] (namespacesRequest config) = .error e →
      Handle gw config clock fuel =
        Outcome.panic ("failed to list namespaces: " ++ e)
          [Call.listNamespaces (namespacesRequest config)]) ∧
    (gw.ListNamespaces [] (namespacesRequest config) = .ok [] →
      Handle gw config clock fuel =
        Outcome.panic ("namespace not found: " ++ config.RegistryNamespace)
          [Call.listNamespaces (namespacesRequest config)]) ∧
    (∀ ns rest, gw.ListNamespaces [] (namespacesRequest config) = .ok (ns :: rest) →
      (∀ err h,
        RegistryClient.ListImages gw config ns fuel
          [Call.listNamespaces (namespacesRequest config)] = Walk.returned (.error err) h →
        Handle gw config clock fuel = Outcome.panic err h ∧
        tagCalls h = [] ∧
        ∃ h0 p e, gw.ListImages h0 (imagesRequest config ns p) = .error e ∧
          err = "failed to list images: " ++ e ∧
          h = h0 ++ [Call.listImages (imagesRequest config ns p)]) ∧
      (∀ images h,
        RegistryClient.ListImages gw config ns fuel
          [Call.listNamespaces (namespacesRequest config)] = Walk.returned (.ok images) h →
        ((∃ st, Handle gw config clock fuel = Outcome.summary st) ↔
          ((∀ w ∈ runWalks gw config clock fuel, w.result.isSome = true) ∧
            ∀ tag ∈ enumeratedTags gw config clock fuel, tag.UpdatedAt.isSome = true)) ∧
        (∀ err tr, Handle gw config clock fuel = Outcome.panic err tr →
          err = nilDereference ∧
          ∃ tag ∈ enumeratedTags gw config clock fuel, tag.UpdatedAt = none) ∧
        (∀ tr, Handle gw config clock fuel = Outcome.running tr →
          ∃ w ∈ runWalks gw config clock fuel, w.result = none))) := by
  refine ⟨?_, ?_, ?_⟩
  · intro e he
    have hns : RegistryClient.getNamespace gw config [] =
        (.error ("failed to list namespaces: " ++ e),
          [Call.listNamespaces (namespacesRequest config)]) := by
      simp only [RegistryClient.getNamespace]
      unfold namespacesRequest at he
      rw [he]
      rfl
    unfold Handle
    simp only []
    rw [hns]
  · intro he
    have hns : RegistryClient.getNamespace gw config [] =
        (.error ("namespace not found: " ++ config.RegistryNamespace),
          [Call.listNamespaces (namespacesRequest config)]) := by
      simp only [RegistryClient.getNamespace]
      unfold namespacesRequest at he
      rw [he]
      rfl
    unfold Handle
    simp only []
    rw [hns]
  · intro ns rest he
    have hns : RegistryClient.getNamespace gw config [] =
        (.ok ns, [Call.listNamespaces (namespacesRequest config)]) := by
      simp only [RegistryClient.getNamespace]
      unfold namespacesRequest at he
      rw [he]
      rfl
    constructor
    · intro err h hli
      refine ⟨?_, ?_, ?_⟩
      · unfold Handle
        simp only []
        rw [hns]
        simp only []
        rw [hli]
      · have hc := (ListImages_calls gw config ns fuel
          [Call.listNamespaces (namespacesRequest config)]).2
        rw [hli] at hc
        exact hc
      · unfold RegistryClient.ListImages at hli
        rw [ListImages_loop_eq] at hli
        exact pagedLoop_error _ _ _ _ _ _ _ _ _ hli
    · intro images h hli
      have hH : Handle gw config clock fuel =
          (match imageLoop gw config (retentionDateOf config clock) fuel (RunState.start h)
              images with
            | LoopResult.done st => Outcome.summary st
            | LoopResult.panicked err st => Outcome.panic err st.trace
            | LoopResult.outOfFuel st => Outcome.running st.trace) := by
        unfold Handle
        simp only []
        rw [hns]
        simp only []
        rw [hli]
      have hW : runWalks gw config clock fuel =
          tagWalks gw config (retentionDateOf config clock) fuel (RunState.start h) images := by
        unfold runWalks
        rw [hns]
        simp only []
        rw [hli]
      have hE : enumeratedTags gw config clock fuel =
          listedTags gw config (retentionDateOf config clock) fuel (RunState.start h) images := by
        unfold enumeratedTags listedTags
        rw [hW]
      obtain ⟨i1, i2, i3⟩ := imageLoop_done_iff gw config (retentionDateOf config clock) fuel
        images (RunState.start h)
      rw [hH, hW, hE]
      cases hil : imageLoop gw config (retentionDateOf config clock) fuel (RunState.start h)
          images with
      | done st =>
        rw [hil] at i1
        refine ⟨⟨fun _ => i1.1 ⟨st, rfl⟩, fun _ => ⟨st, rfl⟩⟩, ?_, ?_⟩
        · intro err tr hp; simp at hp
        · intro tr hp; simp at hp
      | panicked err st =>
        rw [hil] at i1
        refine ⟨⟨fun ⟨s, hs⟩ => by simp at hs, fun hc => ?_⟩, ?_, ?_⟩
        · obtain ⟨s, hs⟩ := i1.2 hc
          simp at hs
        · intro err2 tr hp
          simp only [Outcome.panic.injEq] at hp
          obtain ⟨e1, hx⟩ := i2 err st hil
          exact ⟨hp.1 ▸ e1, hx⟩
        · intro tr hp; simp at hp
      | outOfFuel st =>
        rw [hil] at i1
        refine ⟨⟨fun ⟨s, hs⟩ => by simp at hs, fun hc => ?_⟩, ?_, ?_⟩
        · obtain ⟨s, hs⟩ := i1.2 hc
          simp at hs
        · intro err2 tr hp; simp at hp
        · intro tr _
          exact i3 st hil

set_option maxRecDepth 100000 in
/-- Three runs: no namespace found and a failing image listing both panic
after one and two calls; the run over three images, in which a tag listing and
a deletion fail, reaches the summary. -/
theorem Handle_fatal_errors_witness :
    Handle noNamespaceGateway keepConfig sampleClock 2 =
      Outcome.panic "namespace not found: main"
        [Call.listNamespaces (namespacesRequest keepConfig)] ∧
    Handle noImagesGateway keepConfig sampleClock 2 =
      Outcome.panic "failed to list images: timeout"
        [Call.listNamespaces (namespacesRequest keepConfig),
         Call.listImages (imagesRequest keepConfig sampleNamespace 1)] ∧
    ∃ st, Handle sampleGateway keepConfig sampleClock 2 = Outcome.summary st :=
  ⟨(Handle_fatal_errors noNamespaceGateway keepConfig sampleClock 2).2.1 rfl,
    (((Handle_fatal_errors noImagesGateway keepConfig sampleClock 2).2.2 sampleNamespace []
      rfl).1 _ _ rfl).1,
    ((((Handle_fatal_errors sampleGateway keepConfig sampleClock 2).2.2 sampleNamespace []
      rfl).2 [imageA, imageB, imageC] _ rfl).1).2 ⟨by decide, by decide⟩⟩

/-- Against a gateway that answers every tag-listing request with a full page
the tag-listing loop never returns. -/
theorem ListTags_loop_fullPages (config : Config) (image : Image) :
    ∀ (fuel : Nat) (page : Int) (acc : List Tag) (h : Trace),
      (RegistryClient.ListTags.loop fullPagesGateway config image fuel page acc h).result =
        none := by
  intro fuel
  induction fuel with
  | zero => intro page acc h; rfl
  | succ n ih =>
    intro page acc h
    rw [RegistryClient.ListTags.loop]
    simp only [fullPagesGateway, List.length_replicate, lt_irrefl, if_false]
    exact ih _ _ _

set_option maxRecDepth 100000 in
/-- C10 as stated fails in two ways. Against a gateway that finds the
namespace, lists one image and lists its tags without any error, a tag without
a last-update time makes `Handle` panic. Against a gateway that finds the
namespace, lists one image and answers every tag-listing request with a full
page of 100 tags, no call fails and `Handle` reaches no summary, whatever the
fuel. -/
theorem Handle_summary_counterexample :
    (RegistryClient.getNamespace nilTagGateway keepConfig []).1 = .ok sampleNamespace ∧
    (RegistryClient.ListImages nilTagGateway keepConfig sampleNamespace 2
      [Call.listNamespaces (namespacesRequest keepConfig)]).result = some (.ok [imageA]) ∧
    (∃ tags, (RegistryClient.ListTags nilTagGateway keepConfig imageA 2 []).result =
      some (.ok tags)) ∧
    (∃ tr, Handle nilTagGateway keepConfig sampleClock 2 = Outcome.panic nilDereference tr) ∧
    (RegistryClient.getNamespace fullPagesGateway sampleConfig []).1 = .ok sampleNamespace ∧
    (RegistryClient.ListImages fullPagesGateway sampleConfig sampleNamespace 1
      [Call.listNamespaces (namespacesRequest sampleConfig)]).result =
        some (.ok [sampleImage]) ∧
    ¬ ∃ fuel st, Handle fullPagesGateway sampleConfig sampleClock fuel = Outcome.summary st := by
  refine ⟨rfl, rfl, ⟨_, rfl⟩, ⟨_, rfl⟩, rfl, rfl, ?_⟩
  rintro ⟨fuel, st, hrun⟩
  cases fuel with
  | zero => simp [Handle, RegistryClient.getNamespace, RegistryClient.ListImages,
      RegistryClient.ListImages.loop, fullPagesGateway] at hrun
  | succ n =>
    have hres := ListTags_loop_fullPages sampleConfig sampleImage (n + 1) 1 []
    have hH : ∀ h, processImage fullPagesGateway sampleConfig
        (retentionDateOf sampleConfig sampleClock) (n + 1) (RunState.start h) sampleImage =
        LoopResult.outOfFuel { RunState.start h with
          trace := (RegistryClient.ListTags fullPagesGateway sampleConfig sampleImage (n + 1)
            h).trace } := by
      intro h
      have hr := hres h
      unfold processImage
      unfold RegistryClient.ListTags
      cases hl : RegistryClient.ListTags.loop fullPagesGateway sampleConfig sampleImage (n + 1)
          1 [] (RunState.start h).trace with
      | running h1 =>
        have : (RunState.start h).trace = h := rfl
        rw [this] at hl
        rw [hl]
        rfl
      | returned r h1 =>
        have : (RunState.start h).trace = h := rfl
        rw [this] at hl
        rw [hl] at hr
        simp [Walk.result] at hr
    have hli : RegistryClient.ListImages fullPagesGateway sampleConfig sampleNamespace (n + 1)
        [Call.listNamespaces (namespacesRequest sampleConfig)] =
        Walk.returned (.ok [sampleImage]) [Call.listNamespaces (namespacesRequest sampleConfig),
          Call.listImages (imagesRequest sampleConfig sampleNamespace 1)] := rfl
    have hns : RegistryClient.getNamespace fullPagesGateway sampleConfig [] =
        (.ok sampleNamespace, [Call.listNamespaces (namespacesRequest sampleConfig)]) := rfl
    unfold Handle at hrun
    simp only [] at hrun
    rw [hns] at hrun
    simp only [] at hrun
    rw [hli] at hrun
    simp only [imageLoop, hH] at hrun
    simp at hrun

/-! ## C5: isolation of a failed tag listing -/

theorem pagedLoop_stateless {α : Type} (fetch : Trace → Int → Except String (List α))
    (mkCall : Int → Call) (wrapErr : String → String)
    (hs : ∀ h p, fetch h p = fetch [] p) :
    ∀ (fuel : Nat) (page : Int) (acc : List α) (h h1 : Trace),
      (pagedLoop fetch mkCall wrapErr fuel page acc h).result =
        (pagedLoop fetch mkCall wrapErr fuel page acc h1).result := by
  intro fuel
  induction fuel with
  | zero => intro page acc h h1; rfl
  | succ n ih =>
    intro page acc h h1
    rw [pagedLoop, pagedLoop, hs h page, hs h1 page]
    cases fetch [] page with
    | error e => rfl
    | ok items =>
      simp only []
      by_cases hshort : items.length < 100
      · rw [if_pos hshort, if_pos hshort]; rfl
      · rw [if_neg hshort, if_neg hshort]; exact ih _ _ _ _

/-- Against a stateless gateway the result of a tag listing does not depend on
the calls made before. -/
theorem ListTags_stateless (gw : Gateway) (config : Config) (hs : gw.Stateless) (image : Image)
    (fuel : Nat) (h : Trace) :
    (RegistryClient.ListTags gw config image fuel h).result =
      (RegistryClient.ListTags gw config image fuel []).result := by
  unfold RegistryClient.ListTags
  rw [ListTags_loop_eq, ListTags_loop_eq]
  exact pagedLoop_stateless _ _ _ (fun h p => hs.1 h (tagsRequest config image p)) fuel 1 [] h []

theorem processTag_sameTagWork (gw : Gateway) (config : Config) (retentionDate : Time)
    (hs : gw.Stateless) (a b : RunState) (tag : Tag) (t : Time) (ht : tag.UpdatedAt = some t)
    (hab : a.sameTagWork b) :
    ∃ a1 b1, processTag gw config retentionDate a tag = .ok a1 ∧
      processTag gw config retentionDate b tag = .ok b1 ∧ a1.sameTagWork b1 ∧
      a1.errorImages = a.errorImages ∧ b1.errorImages = b.errorImages := by
  obtain ⟨h1, h2, h3, h4, h5⟩ := hab
  rw [processTag_eq_match gw config retentionDate a tag t ht,
    processTag_eq_match gw config retentionDate b tag t ht]
  refine ⟨_, _, rfl, rfl, ?_⟩
  cases evaluate t tag.Name retentionDate config.PreserveTagPatterns with
  | Skip => exact ⟨⟨h1, h2, by simp [h3], h4, h5⟩, rfl, rfl⟩
  | Preserve => exact ⟨⟨h1, by simp [h2], h3, h4, h5⟩, rfl, rfl⟩
  | Delete =>
    unfold RegistryClient.DeleteTag
    cases hdry : config.DryRun with
    | true => exact ⟨⟨by simp [h1], h2, h3, h4, h5⟩, rfl, rfl⟩
    | false =>
      simp only [Bool.false_eq_true, if_false]
      rw [hs.2 a.trace, hs.2 b.trace]
      cases gw.DeleteTag [] { Region := config.Region, TagID := tag.ID } with
      | error e =>
        refine ⟨⟨h1, h2, h3, by simp [h4], ?_⟩, rfl, rfl⟩
        simp only [deleteCalls_append, h5]
      | ok u =>
        refine ⟨⟨by simp [h1], h2, h3, h4, ?_⟩, rfl, rfl⟩
        simp only [deleteCalls_append, h5]

theorem tagLoop_sameTagWork (gw : Gateway) (config : Config) (retentionDate : Time)
    (hs : gw.Stateless) (tags : List Tag) : ∀ (a b : RunState),
    (∀ tag ∈ tags, tag.UpdatedAt.isSome = true) → a.sameTagWork b →
    ∃ a1 b1, tagLoop gw config retentionDate a tags = LoopResult.done a1 ∧
      tagLoop gw config retentionDate b tags = LoopResult.done b1 ∧ a1.sameTagWork b1 ∧
      a1.errorImages = a.errorImages ∧ b1.errorImages = b.errorImages := by
  induction tags with
  | nil => intro a b _ hab; exact ⟨a, b, rfl, rfl, hab, rfl, rfl⟩
  | cons tag tags ih =>
    intro a b hall hab
    have hsome := hall tag (List.mem_cons_self _ _)
    obtain ⟨t, ht⟩ := Option.isSome_iff_exists.1 hsome
    obtain ⟨a1, b1, ha, hb, hsim, ea, eb⟩ :=
      processTag_sameTagWork gw config retentionDate hs a b tag t ht hab
    obtain ⟨a2, b2, ha2, hb2, hsim2, ea2, eb2⟩ :=
      ih a1 b1 (fun x hx => hall x (List.mem_cons_of_mem _ hx)) hsim
    refine ⟨a2, b2, ?_, ?_, hsim2, by rw [ea2, ea], by rw [eb2, eb]⟩
    · rw [tagLoop, ha]; exact ha2
    · rw [tagLoop, hb]; exact hb2

/-- Against a stateless gateway, on an image whose listing succeeds with tags
that all have a last-update time, one iteration of the image loop ends, does
the same work on tags from two states that have done the same work, and counts
no image error. -/
theorem processImage_listed (gw : Gateway) (config : Config) (retentionDate : Time)
    (fuel : Nat) (hs : gw.Stateless) (a b : RunState) (image : Image)
    (hl : Listed gw config fuel image) (hab : a.sameTagWork b) :
    ∃ a1 b1, processImage gw config retentionDate fuel a image = LoopResult.done a1 ∧
      processImage gw config retentionDate fuel b image = LoopResult.done b1 ∧
      a1.sameTagWork b1 ∧ a1.errorImages = a.errorImages ∧
      b1.errorImages = b.errorImages := by
  obtain ⟨tags, hres, hall⟩ := hl
  have hsa := ListTags_stateless gw config hs image fuel a.trace
  have hsb := ListTags_stateless gw config hs image fuel b.trace
  have hda := ListTags_deleteCalls gw config image fuel a.trace
  have hdb := ListTags_deleteCalls gw config image fuel b.trace
  rw [hres] at hsa hsb
  unfold processImage
  cases hla : RegistryClient.ListTags gw config image fuel a.trace with
  | running h => rw [hla] at hsa; simp [Walk.result] at hsa
  | returned ra ha1 =>
    rw [hla] at hsa hda
    simp only [Walk.result, Option.some.injEq] at hsa
    subst hsa
    cases hlb : RegistryClient.ListTags gw config image fuel b.trace with
    | running h => rw [hlb] at hsb; simp [Walk.result] at hsb
    | returned rb hb1 =>
      rw [hlb] at hsb hdb
      simp only [Walk.result, Option.some.injEq] at hsb
      subst hsb
      obtain ⟨h1, h2, h3, h4, h5⟩ := hab
      exact tagLoop_sameTagWork gw config retentionDate hs tags _ _ hall
        ⟨h1, h2, h3, h4, by
          show deleteCalls ha1 = deleteCalls hb1
          exact hda.trans (h5.trans hdb.symm)⟩

theorem imageLoop_listed (gw : Gateway) (config : Config) (retentionDate : Time)
    (fuel : Nat) (hs : gw.Stateless) (images : List Image) : ∀ (a b : RunState),
    (∀ image ∈ images, Listed gw config fuel image) → a.sameTagWork b →
    ∃ a1 b1, imageLoop gw config retentionDate fuel a images = LoopResult.done a1 ∧
      imageLoop gw config retentionDate fuel b images = LoopResult.done b1 ∧
      a1.sameTagWork b1 ∧ a1.errorImages = a.errorImages ∧
      b1.errorImages = b.errorImages := by
  induction images with
  | nil => intro a b _ hab; exact ⟨a, b, rfl, rfl, hab, rfl, rfl⟩
  | cons image images ih =>
    intro a b hall hab
    obtain ⟨a1, b1, ha, hb, hsim, ea, eb⟩ := processImage_listed gw config retentionDate fuel hs
      a b image (hall image (List.mem_cons_self _ _)) hab
    obtain ⟨a2, b2, ha2, hb2, hsim2, ea2, eb2⟩ :=
      ih a1 b1 (fun x hx => hall x (List.mem_cons_of_mem _ hx)) hsim
    refine ⟨a2, b2, ?_, ?_, hsim2, by rw [ea2, ea], by rw [eb2, eb]⟩
    · rw [imageLoop, ha]; exact ha2
    · rw [imageLoop, hb]; exact hb2

theorem imageLoop_append_done (gw : Gateway) (config : Config) (retentionDate : Time)
    (fuel : Nat) (xs ys : List Image) : ∀ (st s : RunState),
    imageLoop gw config retentionDate fuel st xs = LoopResult.done s →
    imageLoop gw config retentionDate fuel st (xs ++ ys) =
      imageLoop gw config retentionDate fuel s ys := by
  induction xs with
  | nil =>
    intro st s h
    simp only [imageLoop, LoopResult.done.injEq] at h
    rw [h]
    rfl
  | cons x xs ih =>
    intro st s h
    rw [imageLoop] at h
    rw [List.cons_append, imageLoop]
    cases hp : processImage gw config retentionDate fuel st x with
    | done s1 =>
      rw [hp] at h
      exact ih s1 s h
    | panicked e s1 => rw [hp] at h; simp at h
    | outOfFuel s1 => rw [hp] at h; simp at h

theorem sameTagWork_refl (a : RunState) : a.sameTagWork a := ⟨rfl, rfl, rfl, rfl, rfl⟩

/-- C5 (amended): against a gateway whose tag listings and deletions do not
depend on the calls made before, take M images of which exactly one, image
`k`, has a failing tag listing, the listings of the others succeeding with tags
that all have a last-update time. The image loop ends without abort, with an
image-error counter of 1, and its four tag counters and its delete calls are
those of the loop over the other M - 1 images alone, in which no image error is
counted: nothing of image `k` is evaluated, counted or deleted. -/
theorem image_error_isolation (gw : Gateway) (config : Config) (retentionDate : Time)
    (fuel : Nat) (hs : gw.Stateless) (before after : List Image) (k : Image) (h0 : Trace)
    (hfail : ∃ e, (RegistryClient.ListTags gw config k fuel []).result = some (.error e))
    (hok : ∀ image ∈ before ++ after, Listed gw config fuel image) :
    ∃ st stR,
      imageLoop gw config retentionDate fuel (RunState.start h0) (before ++ k :: after) =
        LoopResult.done st ∧
      imageLoop gw config retentionDate fuel (RunState.start h0) (before ++ after) =
        LoopResult.done stR ∧
      st.errorImages = 1 ∧ stR.errorImages = 0 ∧
      st.deletedTags = stR.deletedTags ∧ st.preservedTags = stR.preservedTags ∧
      st.skippedTags = stR.skippedTags ∧ st.errorTags = stR.errorTags ∧
      deleteCalls st.trace = deleteCalls stR.trace := by
  obtain ⟨sB, _, hB, _, _, hBerr, _⟩ := imageLoop_listed gw config retentionDate fuel hs before
    (RunState.start h0) (RunState.start h0) (fun i hi => hok i (List.mem_append_left _ hi))
    (sameTagWork_refl _)
  obtain ⟨e, hk⟩ := hfail
  rw [← ListTags_stateless gw config hs k fuel sB.trace] at hk
  have hdc := ListTags_deleteCalls gw config k fuel sB.trace
  cases hl : RegistryClient.ListTags gw config k fuel sB.trace with
  | running h => rw [hl] at hk; simp [Walk.result] at hk
  | returned r h1 =>
    rw [hl] at hk hdc
    simp only [Walk.result, Option.some.injEq] at hk
    subst hk
    have hpk : processImage gw config retentionDate fuel sB k =
        LoopResult.done { sB with errorImages := sB.errorImages + 1, trace := h1 } := by
      unfold processImage
      rw [hl]
    have hsim0 : RunState.sameTagWork
        { sB with errorImages := sB.errorImages + 1, trace := h1 } sB :=
      ⟨rfl, rfl, rfl, rfl, hdc⟩
    obtain ⟨sK, sR, hK, hR, hsim, eK, eR⟩ := imageLoop_listed gw config retentionDate fuel hs
      after { sB with errorImages := sB.errorImages + 1, trace := h1 } sB
      (fun i hi => hok i (List.mem_append_right _ hi)) hsim0
    have hzero : (RunState.start h0).errorImages = 0 := rfl
    refine ⟨sK, sR, ?_, ?_, ?_, ?_, hsim.1, hsim.2.1, hsim.2.2.1, hsim.2.2.2.1, hsim.2.2.2.2⟩
    · rw [imageLoop_append_done gw config retentionDate fuel before (k :: after) _ sB hB,
        imageLoop, hpk]
      exact hK
    · rw [imageLoop_append_done gw config retentionDate fuel before after _ sB hB]
      exact hR
    · rw [eK]
      show sB.errorImages + 1 = 1
      rw [hBerr, hzero]
    · rw [eR, hBerr, hzero]

theorem sampleGateway_stateless : sampleGateway.Stateless :=
  ⟨fun _ _ => rfl, fun _ _ => rfl⟩

set_option maxRecDepth 100000 in
/-- The images `a`, `b`, `c` of the sample gateway: the listing of `b` fails,
and the loop over the three ends as the loop over `a` and `c` does, with one
image error. -/
theorem image_error_isolation_witness :
    (∃ e, (RegistryClient.ListTags sampleGateway keepConfig imageB 2 []).result =
      some (.error e)) ∧
    ∃ st stR,
      imageLoop sampleGateway keepConfig { unixNano := 100 } 2 (RunState.start [])
        ([imageA] ++ imageB :: [imageC]) = LoopResult.done st ∧
      imageLoop sampleGateway keepConfig { unixNano := 100 } 2 (RunState.start [])
        ([imageA] ++ [imageC]) = LoopResult.done stR ∧
      st.errorImages = 1 ∧ stR.errorImages = 0 ∧
      st.deletedTags = stR.deletedTags ∧ st.preservedTags = stR.preservedTags ∧
      st.skippedTags = stR.skippedTags ∧ st.errorTags = stR.errorTags ∧
      deleteCalls st.trace = deleteCalls stR.trace :=
  ⟨⟨_, rfl⟩,
    image_error_isolation sampleGateway keepConfig { unixNano := 100 } 2 sampleGateway_stateless
      [imageA] [imageC] imageB [] ⟨_, rfl⟩ (by
        intro image hmem
        simp only [List.cons_append, List.nil_append, List.mem_cons, List.mem_singleton,
          List.not_mem_nil, or_false] at hmem
        rcases hmem with rfl | rfl
        · exact ⟨tagsA, rfl, by decide⟩
        · exact ⟨tagsC, rfl, by decide⟩)⟩

set_option maxRecDepth 100000 in
/-- C5 as stated fails in two ways. Against a rate-limited gateway, whose
deletions fail once six calls have been made, the tag listing fails for `b`
only, whatever came before, and the run over `a`, `b`, `c` ends with 1 tag
deleted and 1 tag error where the run over `a` and `c` alone ends with 2 tags
deleted and no error. Against a gateway that does not depend on the calls made
before, where the listing fails for `b` only, a tag of `c` without a
last-update time makes `Handle` panic. -/
theorem image_error_isolation_counterexample :
    (∀ h, (RegistryClient.ListTags (rateLimitedGateway [imageA, imageB, imageC]) keepConfig
      imageB 2 h).result = some (.error "failed to list tags for image b: unavailable")) ∧
    (∀ h, (RegistryClient.ListTags (rateLimitedGateway [imageA, imageB, imageC]) keepConfig
      imageA 2 h).result = some (.ok [oldTag "build-img-a"])) ∧
    (∀ h, (RegistryClient.ListTags (rateLimitedGateway [imageA, imageB, imageC]) keepConfig
      imageC 2 h).result = some (.ok [oldTag "build-img-c"])) ∧
    (∃ st stR,
      Handle (rateLimitedGateway [imageA, imageB, imageC]) keepConfig sampleClock 2 =
        Outcome.summary st ∧
      Handle (rateLimitedGateway [imageA, imageC]) keepConfig sampleClock 2 =
        Outcome.summary stR ∧
      (st.errorImages, st.deletedTags, st.errorTags) = (1, 1, 1) ∧
      (stR.errorImages, stR.deletedTags, stR.errorTags) = (0, 2, 0)) ∧
    nilAfterErrorGateway.Stateless ∧
    (∀ h, (RegistryClient.ListTags nilAfterErrorGateway keepConfig imageB 2 h).result =
      some (.error "failed to list tags for image b: unavailable")) ∧
    (∀ h, ∃ tags, (RegistryClient.ListTags nilAfterErrorGateway keepConfig imageA 2 h).result =
      some (.ok tags)) ∧
    (∀ h, ∃ tags, (RegistryClient.ListTags nilAfterErrorGateway keepConfig imageC 2 h).result =
      some (.ok tags)) ∧
    ∃ tr, Handle nilAfterErrorGateway keepConfig sampleClock 2 =
      Outcome.panic nilDereference tr := by
  refine ⟨fun h => rfl, fun h => rfl, fun h => rfl, ⟨_, _, rfl, rfl, by decide, by decide⟩,
    ⟨fun _ _ => rfl, fun _ _ => rfl⟩, fun h => rfl, fun h => ⟨_, rfl⟩, fun h => ⟨_, rfl⟩,
    ⟨_, rfl⟩⟩

/-- The empty regular expression matches every string. -/
theorem empty_matches_all (s : String) : Regexp.empty.MatchString s = true := by
  unfold Regexp.MatchString
  cases s.toList with
  | nil => rfl
  | cons c cs => simp [matchFrom, step]

/-! ## What the default pattern matches -/

theorem iter_suffix (f : MState → List MState)
    (hf : ∀ s t, t ∈ f s → t.2 <:+ s.2) :
    ∀ (n : Nat) (s t : MState), t ∈ iter f n s → t.2 <:+ s.2 := by
  intro n
  induction n with
  | zero =>
    intro s t ht
    simp only [iter, List.mem_singleton] at ht
    rw [ht]
  | succ n ih =>
    intro s t ht
    simp only [iter, List.mem_cons, List.mem_flatMap, List.mem_filter] at ht
    rcases ht with rfl | ⟨u, ⟨hu, _⟩, htu⟩
    · exact List.suffix_refl _
    · exact (ih u t htu).trans (hf s u hu)

/-- A match ends at a suffix of the text it starts at. -/
theorem step_suffix : ∀ (r : Regexp) (s t : MState), t ∈ step r s → t.2 <:+ s.2 := by
  intro r
  induction r with
  | empty =>
    intro s t ht
    simp only [step, List.mem_singleton] at ht
    rw [ht]
  | lit c =>
    intro s t ht
    obtain ⟨b, xs⟩ := s
    cases xs with
    | nil => simp [step] at ht
    | cons x xs =>
      simp only [step] at ht
      split at ht
      · simp only [List.mem_singleton] at ht
        rw [ht]
        exact List.suffix_cons _ _
      · simp at ht
  | anyNotNL =>
    intro s t ht
    obtain ⟨b, xs⟩ := s
    cases xs with
    | nil => simp [step] at ht
    | cons x xs =>
      simp only [step] at ht
      split at ht
      · simp at ht
      · simp only [List.mem_singleton] at ht
        rw [ht]
        exact List.suffix_cons _ _
  | cls neg rs =>
    intro s t ht
    obtain ⟨b, xs⟩ := s
    cases xs with
    | nil => simp [step] at ht
    | cons x xs =>
      simp only [step] at ht
      split at ht
      · simp only [List.mem_singleton] at ht
        rw [ht]
        exact List.suffix_cons _ _
      · simp at ht
  | bot =>
    intro s t ht
    obtain ⟨b, xs⟩ := s
    simp only [step] at ht
    split at ht
    · simp only [List.mem_singleton] at ht
      rw [ht]
    · simp at ht
  | eot =>
    intro s t ht
    obtain ⟨b, xs⟩ := s
    simp only [step] at ht
    split at ht
    · simp only [List.mem_singleton] at ht
      rw [ht]
    · simp at ht
  | cat a b iha ihb =>
    intro s t ht
    simp only [step, List.mem_flatMap] at ht
    obtain ⟨u, hu, htu⟩ := ht
    exact (ihb u t htu).trans (iha s u hu)
  | alt a b iha ihb =>
    intro s t ht
    simp only [step, List.mem_append] at ht
    rcases ht with h | h
    · exact iha s t h
    · exact ihb s t h
  | star a iha =>
    intro s t ht
    simp only [step] at ht
    exact iter_suffix _ iha _ _ _ ht
  | plus a iha =>
    intro s t ht
    simp only [step, List.mem_flatMap] at ht
    obtain ⟨u, hu, htu⟩ := ht
    exact (iter_suffix _ iha _ _ _ htu).trans (iha s u hu)
  | quest a iha =>
    intro s t ht
    simp only [step, List.mem_append, List.mem_singleton] at ht
    rcases ht with h | h
    · exact iha s t h
    · rw [h]

/-- A match of `a c b`, with `c` a literal character, reads `c` in the text. -/
theorem step_cat_lit_mem (a b : Regexp) (c : Char) (s : MState)
    (hne : step (Regexp.cat a (Regexp.cat (Regexp.lit c) b)) s ≠ []) : c ∈ s.2 := by
  obtain ⟨t, ht⟩ := List.exists_mem_of_ne_nil _ hne
  simp only [step, List.mem_flatMap] at ht
  obtain ⟨u, hu, v, hv, _⟩ := ht
  have hsuf := step_suffix a s u hu
  obtain ⟨bu, xs⟩ := u
  cases xs with
  | nil => simp [step] at hv
  | cons x xs =>
    simp only [step] at hv
    split at hv
    · rename_i hx
      apply hsuf.subset
      rw [hx]
      exact List.mem_cons_self _ _
    · simp at hv

/-- A match of `c b`, with `c` a literal character, starts with `c`. -/
theorem step_lit_cat (b : Regexp) (c : Char) (s : MState)
    (hne : step (Regexp.cat (Regexp.lit c) b) s ≠ []) :
    ∃ xs, s.2 = c :: xs ∧ step b (false, xs) ≠ [] := by
  obtain ⟨t, ht⟩ := List.exists_mem_of_ne_nil _ hne
  simp only [step, List.mem_flatMap] at ht
  obtain ⟨u, hu, htu⟩ := ht
  obtain ⟨bs, xs⟩ := s
  cases xs with
  | nil => simp [step] at hu
  | cons x xs =>
    simp only [step] at hu
    split at hu
    · rename_i hx
      simp only [List.mem_singleton] at hu
      rw [hu] at htu
      exact ⟨xs, by rw [hx], List.ne_nil_of_mem htu⟩
    · simp at hu

/-- A match of `^ b` starts at the beginning of the text. -/
theorem step_bot_cat (b : Regexp) (s : MState)
    (hne : step (Regexp.cat Regexp.bot b) s ≠ []) : s.1 = true ∧ step b s ≠ [] := by
  obtain ⟨t, ht⟩ := List.exists_mem_of_ne_nil _ hne
  simp only [step, List.mem_flatMap] at ht
  obtain ⟨u, hu, htu⟩ := ht
  obtain ⟨bs, xs⟩ := s
  simp only [step] at hu
  split at hu
  · rename_i hb
    simp only [List.mem_singleton] at hu
    rw [hu] at htu
    exact ⟨hb, List.ne_nil_of_mem htu⟩
  · simp at hu

/-- An unanchored search that succeeds found a match at the start position or
at a later position, which is not the beginning of the text. -/
theorem matchFrom_true (r : Regexp) : ∀ (xs : List Char) (b : Bool),
    matchFrom r b xs = true →
    step r (b, xs) ≠ [] ∨ ∃ ys, ys <:+ xs ∧ step r (false, ys) ≠ [] := by
  intro xs
  induction xs with
  | nil =>
    intro b h
    simp only [matchFrom, Bool.not_eq_true', List.isEmpty_eq_false] at h
    exact Or.inl h
  | cons x xs ih =>
    intro b h
    simp only [matchFrom, Bool.or_eq_true, Bool.not_eq_true', List.isEmpty_eq_false] at h
    rcases h with h | h
    · exact Or.inl h
    · rcases ih false h with h1 | ⟨ys, hys, h1⟩
      · exact Or.inr ⟨xs, List.suffix_cons _ _, h1⟩
      · exact Or.inr ⟨ys, hys.trans (List.suffix_cons _ _), h1⟩

theorem matchFrom_of_step (r : Regexp) (b : Bool) (xs : List Char)
    (hne : step r (b, xs) ≠ []) : matchFrom r b xs = true := by
  cases xs with
  | nil => simp [matchFrom, hne]
  | cons x xs => simp [matchFrom, hne]

theorem mem_step_cat (a b : Regexp) (s u t : MState) (hu : u ∈ step a s) (ht : t ∈ step b u) :
    t ∈ step (Regexp.cat a b) s := by
  simp only [step, List.mem_flatMap]
  exact ⟨u, hu, ht⟩

theorem mem_step_quest (a : Regexp) (s t : MState) (ht : t ∈ step a s) :
    t ∈ step (Regexp.quest a) s := by
  rw [step]
  exact List.mem_append_left _ ht

theorem mem_step_alt_left (a b : Regexp) (s t : MState) (ht : t ∈ step a s) :
    t ∈ step (Regexp.alt a b) s := by
  rw [step]
  exact List.mem_append_left _ ht

theorem mem_step_lit (c : Char) (b : Bool) (xs : List Char) :
    (false, xs) ∈ step (Regexp.lit c) (b, c :: xs) := by
  simp [step]

/-- The expression `.+` matches a whole text that is not empty and holds no
newline. -/
theorem mem_step_plus_any : ∀ (xs : List Char) (b : Bool), xs ≠ [] → '\n' ∉ xs →
    (false, []) ∈ step (Regexp.plus Regexp.anyNotNL) (b, xs) := by
  have hiter : ∀ (cs : List Char), '\n' ∉ cs →
      (false, []) ∈ iter (step Regexp.anyNotNL) cs.length (false, cs) := by
    intro cs
    induction cs with
    | nil => intro _; simp [iter]
    | cons c cs ih =>
      intro hnl
      have hc : c ≠ '\n' := fun h => hnl (by rw [h]; exact List.mem_cons_self _ _)
      have hcs : '\n' ∉ cs := fun h => hnl (List.mem_cons_of_mem _ h)
      simp only [List.length_cons, iter, List.mem_cons, List.mem_flatMap, List.mem_filter]
      refine Or.inr ⟨(false, cs), ⟨?_, ?_⟩, ih hcs⟩
      · simp [step, hc]
      · simp
  intro xs b hne hnl
  cases xs with
  | nil => exact absurd rfl hne
  | cons c cs =>
    have hc : c ≠ '\n' := fun h => hnl (by rw [h]; exact List.mem_cons_self _ _)
    have hcs : '\n' ∉ cs := fun h => hnl (List.mem_cons_of_mem _ h)
    simp only [step, List.mem_flatMap]
    exact ⟨(false, cs), by simp [hc], hiter cs hcs⟩

set_option maxRecDepth 100000 in
/-- The constant compiles to an alternation of the `latest` branch and a
version branch that asks for a literal backslash after its first number. -/
theorem DefaultTagPattern_shape :
    ∃ a b, Compile DefaultTagPattern =
      some (Regexp.alt latestBranch
        (Regexp.cat Regexp.bot (Regexp.cat a (Regexp.cat (Regexp.lit '\\') b)))) :=
  ⟨_, _, rfl⟩

/-- A name that the compiled constant matches starts with `latest` or holds a
backslash. -/
theorem DefaultTagPattern_matches_only (re : Regexp) (s : String)
    (hre : Compile DefaultTagPattern = some re) (hm : re.MatchString s = true) :
    (∃ rest, s.toList = 'l' :: 'a' :: 't' :: 'e' :: 's' :: 't' :: rest) ∨ '\\' ∈ s.toList := by
  obtain ⟨a, b, hshape⟩ := DefaultTagPattern_shape
  rw [hre] at hshape
  simp only [Option.some.injEq] at hshape
  subst hshape
  unfold Regexp.MatchString at hm
  have hcase : ∀ (bs : Bool) (ys : List Char),
      step (Regexp.alt latestBranch
        (Regexp.cat Regexp.bot (Regexp.cat a (Regexp.cat (Regexp.lit '\\') b)))) (bs, ys) ≠ [] →
      bs = true ∧ ((∃ rest, ys = 'l' :: 'a' :: 't' :: 'e' :: 's' :: 't' :: rest) ∨ '\\' ∈ ys) := by
    intro bs ys hne
    have hsplit : step latestBranch (bs, ys) ≠ [] ∨
        step (Regexp.cat Regexp.bot (Regexp.cat a (Regexp.cat (Regexp.lit '\\') b))) (bs, ys)
          ≠ [] := by
      by_contra hcon
      push_neg at hcon
      apply hne
      simp only [step] at hcon ⊢
      rw [hcon.1, hcon.2]
      rfl
    rcases hsplit with hl | hv
    · obtain ⟨hb, h1⟩ := step_bot_cat _ _ hl
      obtain ⟨x1, e1, h2⟩ := step_lit_cat _ _ _ h1
      obtain ⟨x2, e2, h3⟩ := step_lit_cat _ _ _ h2
      obtain ⟨x3, e3, h4⟩ := step_lit_cat _ _ _ h3
      obtain ⟨x4, e4, h5⟩ := step_lit_cat _ _ _ h4
      obtain ⟨x5, e5, h6⟩ := step_lit_cat _ _ _ h5
      obtain ⟨x6, e6, _⟩ := step_lit_cat _ _ _ h6
      simp only at e1 e2 e3 e4 e5 e6
      exact ⟨hb, Or.inl ⟨x6, by rw [e1, e2, e3, e4, e5, e6]⟩⟩
    · obtain ⟨hb, h1⟩ := step_bot_cat _ _ hv
      exact ⟨hb, Or.inr (step_cat_lit_mem _ _ _ _ h1)⟩
  rcases matchFrom_true _ _ _ hm with h | ⟨ys, _, h⟩
  · exact (hcase true s.toList h).2
  · exact absurd (hcase false ys h).1 Bool.false_ne_true

/-- The compiled constant matches `latest-` followed by any text that is not
empty and holds no newline. -/
theorem DefaultTagPattern_matches_latest_suffix (re : Regexp) (suffix : String)
    (hre : Compile DefaultTagPattern = some re) (hne : suffix.toList ≠ [])
    (hnl : '\n' ∉ suffix.toList) :
    re.MatchString ("latest-" ++ suffix) = true := by
  obtain ⟨a, b, hshape⟩ := DefaultTagPattern_shape
  rw [hre] at hshape
  simp only [Option.some.injEq] at hshape
  subst hshape
  unfold Regexp.MatchString
  have hlist : ("latest-" ++ suffix).toList =
      'l' :: 'a' :: 't' :: 'e' :: 's' :: 't' :: '-' :: suffix.toList := by
    show ("latest-" ++ suffix).data = _
    rw [String.data_append]
    rfl
  rw [hlist]
  apply matchFrom_of_step
  have hmem : (false, []) ∈ step latestBranch
      (true, 'l' :: 'a' :: 't' :: 'e' :: 's' :: 't' :: '-' :: suffix.toList) := by
    have h9 : ((false, []) : MState) ∈ step Regexp.eot (false, []) := by simp [step]
    have h8 : ((false, []) : MState) ∈
        step (Regexp.quest (Regexp.cat (Regexp.lit '-') (Regexp.plus Regexp.anyNotNL)))
          (false, '-' :: suffix.toList) := by
      exact mem_step_quest _ _ _ (mem_step_cat _ _ _ _ _ (mem_step_lit '-' false _)
        (mem_step_plus_any _ _ hne hnl))
    have h7 := mem_step_cat _ _ _ _ _ h8 h9
    have h6 := mem_step_cat _ _ _ _ _ (mem_step_lit 't' false _) h7
    have h5 := mem_step_cat _ _ _ _ _ (mem_step_lit 's' false _) h6
    have h4 := mem_step_cat _ _ _ _ _ (mem_step_lit 'e' false _) h5
    have h3 := mem_step_cat _ _ _ _ _ (mem_step_lit 't' false _) h4
    have h2 := mem_step_cat _ _ _ _ _ (mem_step_lit 'a' false _) h3
    have h1 := mem_step_cat _ _ _ _ _ (mem_step_lit 'l' true _) h2
    have h0 : ((true, 'l' :: 'a' :: 't' :: 'e' :: 's' :: 't' :: '-' :: suffix.toList) : MState) ∈
        step Regexp.bot (true, 'l' :: 'a' :: 't' :: 'e' :: 's' :: 't' :: '-' :: suffix.toList) := by
      simp [step]
    exact mem_step_cat _ _ _ _ _ h0 h1
  intro hnil
  have : (false, ([] : List Char)) ∈ step (Regexp.alt latestBranch
      (Regexp.cat Regexp.bot (Regexp.cat a (Regexp.cat (Regexp.lit '\\') b))))
      (true, 'l' :: 'a' :: 't' :: 'e' :: 's' :: 't' :: '-' :: suffix.toList) :=
    mem_step_alt_left _ _ _ _ hmem
  rw [hnil] at this
  exact List.not_mem_nil _ this

/-! ## C7, C8: the pattern in effect -/

set_option maxRecDepth 100000 in
/-- C8, on the code: the constant as written compiles; it matches `latest`
and `latest-rc1` and does not match `v1` or `build-42`, but it matches neither
`2.3.1` nor `1.0.0-rc.1+build.5`: each `\\` of the raw string is a literal
backslash, so that the version branch asks for backslashes (it matches
`0\.0\.0`): a name that the constant matches starts with `latest` or holds a
backslash. It matches `latest-` followed by any text that is not empty and
holds no newline. The same text with single backslashes matches both
versions. -/
theorem DefaultTagPattern_as_written :
    ∃ re, Compile DefaultTagPattern = some re ∧
      re.MatchString "latest" = true ∧ re.MatchString "latest-rc1" = true ∧
      re.MatchString "v1" = false ∧ re.MatchString "build-42" = false ∧
      re.MatchString "2.3.1" = false ∧ re.MatchString "1.0.0-rc.1+build.5" = false ∧
      re.MatchString "0\\.0\\.0" = true ∧
      (∀ s : String, re.MatchString s = true →
        (∃ rest, s.toList = 'l' :: 'a' :: 't' :: 'e' :: 's' :: 't' :: rest) ∨ '\\' ∈ s.toList) ∧
      (∀ suffix : String, suffix.toList ≠ [] → '\n' ∉ suffix.toList →
        re.MatchString ("latest-" ++ suffix) = true) ∧
      ∃ re2, Compile semverTagPattern = some re2 ∧
        re2.MatchString "2.3.1" = true ∧ re2.MatchString "1.0.0-rc.1+build.5" = true ∧
        re2.MatchString "latest" = true ∧ re2.MatchString "v1" = false ∧
        re2.MatchString "build-42" = false :=
  ⟨_, rfl, by decide, by decide, by decide, by decide, by decide, by decide, by decide,
    fun s hm => DefaultTagPattern_matches_only _ s rfl hm,
    fun suffix hne hnl => DefaultTagPattern_matches_latest_suffix _ suffix rfl hne hnl,
    _, rfl, by decide, by decide, by decide, by decide, by decide⟩

set_option maxRecDepth 100000 in
/-- C7, on the code: with PRESERVE_TAG_PATTERNS unset, `init` compiles the empty
pattern, which compiles without error and matches every name, so the default
pattern is not used: `latest` and `2.3.1` before the cutoff are preserved, and
so is `build-42`, which the tag loop counts as preserved; no tag at all gets
the verdict Delete. The default pattern is used when the variable holds an
invalid expression, and then `2.3.1` gets the verdict Delete. -/
theorem unset_pattern_preserves_all :
    sampleEnv "PRESERVE_TAG_PATTERNS" = "" ∧
    ∃ c, init sampleEnv (fun _ => none) = .ok c ∧
      c.PreserveTagPatterns = Regexp.empty ∧
      evaluate { unixNano := 0 } "latest" { unixNano := 100 } c.PreserveTagPatterns =
        Verdict.Preserve ∧
      evaluate { unixNano := 0 } "2.3.1" { unixNano := 100 } c.PreserveTagPatterns =
        Verdict.Preserve ∧
      evaluate { unixNano := 0 } "build-42" { unixNano := 100 } c.PreserveTagPatterns =
        Verdict.Preserve ∧
      (∀ (gw : Gateway) (st : RunState),
        processTag gw c { unixNano := 100 } st (oldTag "build-42") =
          .ok { st with preservedTags := st.preservedTags + 1 }) ∧
      (∀ (lastUpdate : Time) (name : String) (cutoff : Time),
        evaluate lastUpdate name cutoff c.PreserveTagPatterns ≠ Verdict.Delete) ∧
      ∃ c2, init badPatternEnv (fun _ => none) = .ok c2 ∧
        Compile DefaultTagPattern = some c2.PreserveTagPatterns ∧
        evaluate { unixNano := 0 } "latest" { unixNano := 100 } c2.PreserveTagPatterns =
          Verdict.Preserve ∧
        evaluate { unixNano := 0 } "2.3.1" { unixNano := 100 } c2.PreserveTagPatterns =
          Verdict.Delete ∧
        evaluate { unixNano := 0 } "build-42" { unixNano := 100 } c2.PreserveTagPatterns =
          Verdict.Delete := by
  refine ⟨rfl, _, rfl, rfl, by decide, by decide, by decide, ?_, ?_, _, rfl, rfl, by decide,
    by decide, by decide⟩
  · intro gw st
    exact (processTag_of_match gw _ { unixNano := 100 } st (oldTag "build-42")
      { unixNano := 0 } rfl (by decide) (by decide)).2
  · intro lastUpdate name cutoff
    unfold evaluate
    split
    · exact fun hc => Verdict.noConfusion hc
    · rw [if_pos (empty_matches_all name)]
      exact fun hc => Verdict.noConfusion hc

end Purge
